import Mathlib

/-!
# Whitelist dApp: the page's connection and join orchestration

A shallow embedding of `my-app/pages/index.js` (the `Home` component).

* The four `useState` cells are the record `SessionState`.
* Every `async` function of the component is a value of `Prog`, a tree of the
  external promises it awaits (`Request`, settled by a `Response`), the React
  setters and browser calls it performs (`Effect`), the exceptions it throws
  and the un-awaited calls it starts (`fork`).  `try`/`catch` is `Prog.tryCatch`.
* `Page` is the running page: the session state and one `Task` per started
  operation, each with its own log and, while suspended, the request it waits
  on together with its continuation.  `Page.settle` resolves one outstanding
  promise and runs that task to its next external request, so that any
  interleaving of the operations is a list of `Action`s.
* A `Monitor` is a checker of task logs; a body that only produces allowed
  events (`Monitor.safe`) gives an invariant of every run of the page.
* `Tame` says what the bodies do about the `loading` flag; it gives the
  invariant `Mining` of the runs in which one join is being mined.

Modelling conventions.  Chain ids, provider objects, transactions, addresses
and counts are natural numbers.  A `Response` of the wrong shape for the
request it settles is treated like a rejected promise.  Evaluating
`web3ModalRef.current.connect()` is the request `Request.connect`; a missing
`current` is one of the ways in which it is rejected.  The additional
microtask turn taken when an `async` function of the page returns into its
awaiting caller is not a separate step.
-/

namespace Whitelist

/-- React state of `Home`: the four `useState` cells. -/
structure SessionState where
  walletConnected : Bool
  joinedWhitelist : Bool
  loading : Bool
  numberOfWhitelisted : Nat
  deriving DecidableEq, Repr

/-- Initial values of the `useState` cells. -/
def SessionState.initial : SessionState :=
  { walletConnected := false, joinedWhitelist := false, loading := false,
    numberOfWhitelisted := 0 }

/-- What `getProviderOrSigner` returns: the `Web3Provider` wrapping the object
obtained from `connect()`, or the signer of that provider. -/
inductive Handle where
  | web3Provider (provider : Nat)
  | signer (provider : Nat)
  deriving DecidableEq, Repr

/-- Exceptions: the `Error("Change network to Goerli")` thrown by
`getProviderOrSigner`, and the rejection of an awaited external promise. -/
inductive Err where
  | changeNetwork
  | rejected
  deriving DecidableEq, Repr

/-- External promises awaited by the page. -/
inductive Request where
  /-- The call `web3ModalRef.current.connect()`. -/
  | connect
  /-- The call `web3Provider.getNetwork()`. -/
  | getNetwork (provider : Nat)
  /-- The call `signer.getAddress()`. -/
  | getAddress (signer : Handle)
  /-- The call `whitelistContract.addAddressToWhitelist()`. -/
  | addAddressToWhitelist (signer : Handle)
  /-- The call `tx.wait()`. -/
  | wait (tx : Nat)
  /-- The call `whitelistContract.numAddressesWhitelisted()`. -/
  | numAddressesWhitelisted (provider : Handle)
  /-- The call `whitelistContract.whitelistedAddresses(address)`. -/
  | whitelistedAddresses (signer : Handle) (address : Nat)
  deriving DecidableEq, Repr

/-- How an awaited external promise settles. -/
inductive Response where
  | rejected
  | provider (p : Nat)
  | network (chainId : Nat)
  | address (a : Nat)
  | tx (t : Nat)
  | receipt
  | count (n : Nat)
  | member (b : Bool)
  deriving DecidableEq, Repr

/-- Synchronous calls with an observable effect: the four React setters,
`window.alert` and `console.error`. -/
inductive Effect where
  | setWalletConnected (b : Bool)
  | setJoinedWhitelist (b : Bool)
  | setLoading (b : Bool)
  | setNumberOfWhitelisted (n : Nat)
  | alert
  | consoleError (e : Err)
  deriving DecidableEq, Repr

/-- The four operations of the page that can be started as a task. -/
inductive Op where
  | connectWallet
  | checkIfAddressInWhitelist
  | getNumberOfWhitelisted
  | addAddressToWhitelist
  deriving DecidableEq, Repr

/-- Body of an `async` function producing an `α`. -/
inductive Prog : Type → Type 1 where
  | ret {α : Type} (a : α) : Prog α
  | throw {α : Type} (e : Err) : Prog α
  | await {α : Type} (req : Request) (k : Response → Prog α) : Prog α
  | effect {α : Type} (e : Effect) (k : Prog α) : Prog α
  | fork {α : Type} (op : Op) (body : Prog Unit) (k : Prog α) : Prog α

namespace Prog

/-- Sequencing: run `p`, then `f` on its result; an exception of `p` skips `f`. -/
def bind {α β : Type} : Prog α → (α → Prog β) → Prog β
  | ret a, f => f a
  | throw e, _ => throw e
  | await req k, f => await req (fun r => bind (k r) f)
  | effect e k, f => effect e (bind k f)
  | fork op body k, f => fork op body (bind k f)

/-- The statement `try { p } catch (err) { h err }`.  An un-awaited call started
inside the `try` block is outside its protection. -/
def tryCatch {α : Type} : Prog α → (Err → Prog α) → Prog α
  | ret a, _ => ret a
  | throw e, h => h e
  | await req k, h => await req (fun r => tryCatch (k r) h)
  | effect e k, h => effect e (tryCatch k h)
  | fork op body k, h => fork op body (tryCatch k h)

instance : Monad Prog where
  pure := ret
  bind := bind

instance : MonadExcept Err Prog where
  throw := throw
  tryCatch := tryCatch

/-- Perform one synchronous call. -/
def perform (e : Effect) : Prog Unit := effect e (ret ())

end Prog


/-- The expression `await web3ModalRef.current.connect()`. -/
def web3ModalConnect : Prog Nat :=
  Prog.await .connect fun
    | .provider p => Prog.ret p
    | _ => Prog.throw .rejected

/-- The expression `await web3Provider.getNetwork()`, projected to `chainId`. -/
def getNetwork (provider : Nat) : Prog Nat :=
  Prog.await (.getNetwork provider) fun
    | .network chainId => Prog.ret chainId
    | _ => Prog.throw .rejected

/-- The expression `await signer.getAddress()`. -/
def getAddress (signer : Handle) : Prog Nat :=
  Prog.await (.getAddress signer) fun
    | .address a => Prog.ret a
    | _ => Prog.throw .rejected

/-- The expression `await whitelistContract.addAddressToWhitelist()`. -/
def contractAddAddressToWhitelist (signer : Handle) : Prog Nat :=
  Prog.await (.addAddressToWhitelist signer) fun
    | .tx t => Prog.ret t
    | _ => Prog.throw .rejected

/-- The expression `await tx.wait()`. -/
def txWait (tx : Nat) : Prog Unit :=
  Prog.await (.wait tx) fun
    | .receipt => Prog.ret ()
    | _ => Prog.throw .rejected

/-- The expression `await whitelistContract.numAddressesWhitelisted()`. -/
def contractNumAddressesWhitelisted (provider : Handle) : Prog Nat :=
  Prog.await (.numAddressesWhitelisted provider) fun
    | .count n => Prog.ret n
    | _ => Prog.throw .rejected

/-- The expression `await whitelistContract.whitelistedAddresses(address)`. -/
def contractWhitelistedAddresses (signer : Handle) (address : Nat) : Prog Bool :=
  Prog.await (.whitelistedAddresses signer address) fun
    | .member b => Prog.ret b
    | _ => Prog.throw .rejected

/-- Source `getProviderOrSigner` (index.js, lines 29-47). -/
def getProviderOrSigner (needSigner : Bool := false) : Prog Handle := do
  let provider ← web3ModalConnect
  let chainId ← getNetwork provider
  if chainId ≠ 5 then do
    Prog.perform .alert
    Prog.throw .changeNetwork
  else if needSigner then
    pure (Handle.signer provider)
  else
    pure (Handle.web3Provider provider)

/-- Source `getNumberOfWhitelisted` (index.js, lines 79-97). -/
def getNumberOfWhitelisted : Prog Unit :=
  Prog.tryCatch
    (do
      let provider ← getProviderOrSigner
      let _numberOfWhitelisted ← contractNumAddressesWhitelisted provider
      Prog.perform (.setNumberOfWhitelisted _numberOfWhitelisted))
    (fun err => Prog.perform (.consoleError err))

/-- Source `addAddressToWhitelist` (index.js, lines 52-74). -/
def addAddressToWhitelist : Prog Unit :=
  Prog.tryCatch
    (do
      let signer ← getProviderOrSigner true
      let tx ← contractAddAddressToWhitelist signer
      Prog.perform (.setLoading true)
      txWait tx
      Prog.perform (.setLoading false)
      getNumberOfWhitelisted
      Prog.perform (.setJoinedWhitelist true))
    (fun err => Prog.perform (.consoleError err))

/-- Source `checkIfAddressInWhitelist` (index.js, lines 102-123). -/
def checkIfAddressInWhitelist : Prog Unit :=
  Prog.tryCatch
    (do
      let signer ← getProviderOrSigner true
      let address ← getAddress signer
      let _joinedWhitelist ← contractWhitelistedAddresses signer address
      Prog.perform (.setJoinedWhitelist _joinedWhitelist))
    (fun err => Prog.perform (.consoleError err))

/-- Source `connectWallet` (index.js, lines 128-140); the two reads are called
without `await`. -/
def connectWallet : Prog Unit :=
  Prog.tryCatch
    (do
      let _ ← getProviderOrSigner
      Prog.perform (.setWalletConnected true)
      Prog.fork .checkIfAddressInWhitelist checkIfAddressInWhitelist (Prog.ret ())
      Prog.fork .getNumberOfWhitelisted getNumberOfWhitelisted (Prog.ret ()))
    (fun err => Prog.perform (.consoleError err))

/-- The function behind each operation name. -/
def Op.body : Op → Prog Unit
  | .connectWallet => Whitelist.connectWallet
  | .checkIfAddressInWhitelist => Whitelist.checkIfAddressInWhitelist
  | .getNumberOfWhitelisted => Whitelist.getNumberOfWhitelisted
  | .addAddressToWhitelist => Whitelist.addAddressToWhitelist

/-- The element returned by `renderButton`. -/
inductive Control where
  /-- The text "Thanks for joining the Whitelist!". -/
  | thanks
  /-- The button "Loading...", which has no `onClick`. -/
  | loadingButton
  /-- The button "Join the Whitelist". -/
  | joinButton
  /-- The button "Connect your wallet". -/
  | connectButton
  deriving DecidableEq, Repr

/-- Source `renderButton` (index.js, lines 145-169). -/
def renderButton (s : SessionState) : Control :=
  if s.walletConnected then
    if s.joinedWhitelist then .thanks
    else if s.loading then .loadingButton
    else .joinButton
  else .connectButton

/-- The `onClick` handler of each element. -/
def Control.onClick : Control → Option Op
  | .thanks => none
  | .loadingButton => none
  | .joinButton => some .addAddressToWhitelist
  | .connectButton => some .connectWallet

/-- Entries of a task's log. -/
inductive Event where
  | issued (req : Request)
  | settled (req : Request) (r : Response)
  | did (e : Effect)
  | forked (op : Op)
  | unhandled (e : Err)
  deriving DecidableEq, Repr

/-- One started operation: what it has done so far and, while it is suspended,
the promise it awaits with the rest of the body (of result type `result`). -/
structure Task where
  op : Op
  log : List Event
  result : Type
  pending : Option (Request × (Response → Prog result))

/-- The running page. -/
structure Page where
  state : SessionState
  tasks : List Task

/-- Effect of a synchronous call on the React state. -/
def Effect.apply : Effect → SessionState → SessionState
  | .setWalletConnected b, ⟨_, j, l, n⟩ => ⟨b, j, l, n⟩
  | .setJoinedWhitelist b, ⟨w, _, l, n⟩ => ⟨w, b, l, n⟩
  | .setLoading b, ⟨w, j, _, n⟩ => ⟨w, j, b, n⟩
  | .setNumberOfWhitelisted m, ⟨w, j, l, _⟩ => ⟨w, j, l, m⟩
  | .alert, s => s
  | .consoleError _, s => s

/-- A task that has just been started. -/
def Task.new (op : Op) : Task := ⟨op, [], Unit, none⟩

/-- Append an event to the log of a task. -/
def Task.record : Task → Event → Task
  | ⟨op, log, α, w⟩, ev => ⟨op, log ++ [ev], α, w⟩

/-- The task has ended: it waits for nothing. -/
def Task.finish : Task → Task
  | ⟨op, log, α, _⟩ => ⟨op, log, α, none⟩

/-- The task issues `req` and suspends until it settles. -/
def Task.suspend {α : Type} : Task → Request → (Response → Prog α) → Task
  | ⟨op, log, _, _⟩, req, k => ⟨op, log ++ [.issued req], α, some (req, k)⟩

/-- Run task `tid` from `p` up to its next external request (or its end).  A
forked call runs at once up to its own first request, as a new task. -/
def Page.advance {α : Type} : Prog α → Nat → SessionState → List Task → Page
  | .ret _, tid, s, ts => ⟨s, ts.modify Task.finish tid⟩
  | .throw e, tid, s, ts => ⟨s, ts.modify (fun t => (t.record (.unhandled e)).finish) tid⟩
  | .await req k, tid, s, ts => ⟨s, ts.modify (fun t => t.suspend req k) tid⟩
  | .effect e k, tid, s, ts =>
      Page.advance k tid (e.apply s) (ts.modify (fun t => t.record (.did e)) tid)
  | .fork op body k, tid, s, ts =>
      match Page.advance body ts.length s
          (ts.modify (fun t => t.record (.forked op)) tid ++ [Task.new op]) with
      | ⟨s1, ts1⟩ => Page.advance k tid s1 ts1

/-- Start operation `op` as a new task. -/
def Page.start : Page → Op → Page
  | ⟨s, ts⟩, op => Page.advance op.body ts.length s (ts ++ [Task.new op])

/-- The promise awaited by task `tid` settles with `r`. -/
def Page.settle : Page → Nat → Response → Page
  | ⟨s, ts⟩, tid, r =>
      match ts[tid]? with
      | some ⟨_, _, _, some (req, k)⟩ =>
          Page.advance (k r) tid s (ts.modify (fun t => t.record (.settled req r)) tid)
      | _ => ⟨s, ts⟩

/-- Source `useEffect` callback (index.js, lines 174-186). -/
def Page.useEffect (pg : Page) : Page :=
  if !pg.state.walletConnected then pg.start .connectWallet else pg

/-- The user clicks the element returned by `renderButton`. -/
def Page.click (pg : Page) : Page :=
  match (renderButton pg.state).onClick with
  | some op => pg.start op
  | none => pg

/-- What can happen to the page. -/
inductive Action where
  | useEffect
  | click
  | settle (tid : Nat) (r : Response)

/-- One step of the page. -/
def Page.step (pg : Page) : Action → Page
  | .useEffect => pg.useEffect
  | .click => pg.click
  | .settle tid r => pg.settle tid r

/-- Run a list of actions. -/
def Page.run (pg : Page) (as : List Action) : Page :=
  as.foldl Page.step pg

/-- A page with the given state and no task. -/
def Page.idle (s : SessionState) : Page := { state := s, tasks := [] }

/-- Operation `op` invoked on an otherwise idle page in state `s`, its awaited
promises settling in turn with `rs`. -/
def Page.solo (s : SessionState) (op : Op) (rs : List Response) : Page :=
  ((Page.idle s).start op).run (rs.map (Action.settle 0))

/-- The request a task is suspended on, if any. -/
def Task.waiting (t : Task) : Option Request := t.pending.map Prod.fst

/-- Observable part of a task: its operation, its log, what it waits for. -/
def Task.view (t : Task) : Op × List Event × Option Request := (t.op, t.log, t.waiting)

/-- Settle the successive awaits of a body with the given responses. -/
def Prog.answer {α : Type} : Prog α → List Response → Prog α
  | .ret a, _ => .ret a
  | .throw e, _ => .throw e
  | .await req k, [] => .await req k
  | .await _ k, r :: rs => Prog.answer (k r) rs
  | .effect e k, rs => .effect e (Prog.answer k rs)
  | .fork op body k, rs => .fork op body (Prog.answer k rs)

/-- How a body completes: its return value or exception; `none` while it still
awaits a promise. -/
def Prog.result {α : Type} : Prog α → Option (Except Err α)
  | .ret a => some (.ok a)
  | .throw e => some (.error e)
  | .await _ _ => none
  | .effect _ k => Prog.result k
  | .fork _ _ k => Prog.result k

/-- The external requests a body issues while its awaits settle with the given
responses. -/
def Prog.requests {α : Type} : Prog α → List Response → List Request
  | .ret _, _ => []
  | .throw _, _ => []
  | .await req _, [] => [req]
  | .await req k, r :: rs => req :: Prog.requests (k r) rs
  | .effect _ k, rs => Prog.requests k rs
  | .fork _ _ k, rs => Prog.requests k rs

/-! ## Checkers of task logs -/

/-- A checker of task logs: a state per task, advanced by each event, `none`
when the event is not allowed. -/
structure Monitor (σ : Type) where
  init : Op → σ
  step : σ → Event → Option σ

/-- Run the checker over a log. -/
def Monitor.run {σ : Type} (m : Monitor σ) : σ → List Event → Option σ
  | st, [] => some st
  | st, ev :: evs =>
      match m.step st ev with
      | some st1 => m.run st1 evs
      | none => none

/-- Every event the body can produce from checker state `st` is allowed,
whatever the responses. -/
def Monitor.safe {σ : Type} (m : Monitor σ) {α : Type} : Prog α → σ → Prop
  | .ret _, _ => True
  | .throw e, st => ∃ st1, m.step st (.unhandled e) = some st1
  | .await req k, st =>
      ∃ st1, m.step st (.issued req) = some st1 ∧
        ∀ r, ∃ st2, m.step st1 (.settled req r) = some st2 ∧ Monitor.safe m (k r) st2
  | .effect e k, st => ∃ st1, m.step st (.did e) = some st1 ∧ Monitor.safe m k st1
  | .fork op body k, st =>
      Monitor.safe m body (m.init op) ∧
        ∃ st1, m.step st (.forked op) = some st1 ∧ Monitor.safe m k st1

/-- The log of the task is allowed and so is whatever the task does next. -/
def Monitor.Good {σ : Type} (m : Monitor σ) (t : Task) : Prop :=
  ∃ st, m.run (m.init t.op) t.log = some st ∧
    ∀ req k, t.pending = some (req, k) →
      ∀ r, ∃ st2, m.step st (.settled req r) = some st2 ∧ m.safe (k r) st2

/-- Every task of the page is good for the checker. -/
def Monitor.Inv {σ : Type} (m : Monitor σ) (pg : Page) : Prop :=
  ∀ (i : Nat) (t : Task), pg.tasks[i]? = some t → m.Good t

/-- Contract calls: the three functions of the whitelist contract. -/
def Request.isContractCall : Request → Bool
  | .addAddressToWhitelist _ => true
  | .numAddressesWhitelisted _ => true
  | .whitelistedAddresses _ _ => true
  | _ => false

/-- One step of the chain-guard checker. -/
def chainStep (ok : Bool) : Event → Option Bool
  | .settled (.getNetwork _) r => some (decide (r = .network 5))
  | .issued req => if req.isContractCall && !ok then none else some ok
  | _ => some ok

/-- Checker of the chain guard: the state tells whether the latest
`getNetwork()` of the task reported chain 5; a contract call is allowed only
then. -/
def chainMonitor : Monitor Bool := ⟨fun _ => false, chainStep⟩

/-- The interleavings of `x :: xs` with a second list, `others` giving those of
`xs`: `x` comes first, or - when the second list is `y :: ys` - `y` does. -/
def interleavingsAux {α : Type} (x : α) (others : List α → List (List α)) :
    List α → List (List α)
  | [] => (others []).map (x :: ·)
  | y :: ys => (others (y :: ys)).map (x :: ·) ++ (interleavingsAux x others ys).map (y :: ·)

/-- All interleavings of two lists: the lists made of the elements of both that
keep the order of each. -/
def interleavings {α : Type} : List α → List α → List (List α)
  | [], ys => [ys]
  | x :: xs, ys => interleavingsAux x (interleavings xs) ys

/-- The list `zs` is made of the elements of `xs` and `ys`, keeping the order of
each. -/
inductive Interleaves {α : Type} : List α → List α → List α → Prop where
  | nil : Interleaves [] [] []
  | left {xs ys zs : List α} (x : α) : Interleaves xs ys zs → Interleaves (x :: xs) ys (x :: zs)
  | right {xs ys zs : List α} (y : α) : Interleaves xs ys zs → Interleaves xs (y :: ys) (y :: zs)

/-- The promises of task `tid` settle in turn with `rs`. -/
def settles (tid : Nat) (rs : List Response) : List Action := rs.map (Action.settle tid)

/-- Log of a `getProviderOrSigner` call that obtains provider `p` on chain 5. -/
def connectLog (p : Nat) : List Event :=
  [.issued .connect, .settled .connect (.provider p),
   .issued (.getNetwork p), .settled (.getNetwork p) (.network 5)]

/-- The event confirms membership for a task of operation `op`: a successful
`tx.wait()` in `addAddressToWhitelist`, a `whitelistedAddresses` read that
returned `true` in `checkIfAddressInWhitelist`. -/
def Event.confirms (op : Op) : Event → Bool
  | .settled (.wait _) .receipt => decide (op = .addAddressToWhitelist)
  | .settled (.whitelistedAddresses _ _) (.member true) =>
      decide (op = .checkIfAddressInWhitelist)
  | _ => false

/-- One step of the join checker: `setJoinedWhitelist(true)` is allowed only
after a confirming event of the same task. -/
def joinStep (st : Op × Bool) (ev : Event) : Option (Op × Bool) :=
  if ev = .did (.setJoinedWhitelist true) then
    if st.2 then some st else none
  else some (st.1, st.2 || ev.confirms st.1)

/-- Checker of the join flag. -/
def joinMonitor : Monitor (Op × Bool) := ⟨fun op => (op, false), joinStep⟩

/-- Number of times the tasks of the page have called `web3Modal.connect()`. -/
def Page.connects (pg : Page) : Nat :=
  (pg.tasks.map fun t => t.log.count (.issued .connect)).sum

/-! ## The `loading` flag and the join being mined -/

/-- What running `p` does to the record of the task that runs it. -/
def Task.advance {α : Type} : Prog α → Task → Task
  | .ret _, t => t.finish
  | .throw e, t => (t.record (.unhandled e)).finish
  | .await req k, t => t.suspend req k
  | .effect e k, t => Task.advance k (t.record (.did e))
  | .fork op _ k, t => Task.advance k (t.record (.forked op))

/-- What the settling of its awaited promise does to the record of a task. -/
def Task.settle : Task → Response → Task
  | ⟨op, log, β, some (req, k)⟩, r =>
      Task.advance (k r) (Task.record ⟨op, log, β, some (req, k)⟩ (.settled req r))
  | t, _ => t

/-- Operation and awaited request of every task of the page. -/
def Page.summary (pg : Page) : List (Op × Option Request) :=
  pg.tasks.map fun t => (t.op, t.waiting)

/-- What the bodies of the page do about the `loading` flag, for a task of
operation `op`: when the contract call `addAddressToWhitelist()` resolves to a
transaction `x`, the body goes on with `setLoading(true)` and `await tx.wait()`;
only `addAddressToWhitelist` tasks call `setLoading`; un-awaited calls never
start `addAddressToWhitelist`. -/
def Tame (op : Op) {α : Type} : Prog α → Prop
  | .ret _ => True
  | .throw _ => True
  | .await req k =>
      (∀ h x, req = .addAddressToWhitelist h →
        ∃ k1, k (.tx x) = .effect (.setLoading true) (.await (.wait x) k1)) ∧
      ∀ r, Tame op (k r)
  | .effect e k => ((∃ b, e = .setLoading b) → op = .addAddressToWhitelist) ∧ Tame op k
  | .fork op1 body k => op1 ≠ .addAddressToWhitelist ∧ Tame op1 body ∧ Tame op k

/-- What a suspended task goes on with is tame. -/
def TameTask (t : Task) : Prop :=
  ∀ req k, t.pending = some (req, k) → Tame t.op (.await req k)

/-- Every task of the page is tame. -/
def TameInv (pg : Page) : Prop :=
  ∀ (i : Nat) (t : Task), pg.tasks[i]? = some t → TameTask t

/-- Task `tid` is an `addAddressToWhitelist` run waiting for `tx.wait()` of
transaction `x`, `loading` is true, and every other `addAddressToWhitelist`
task has ended. -/
def Mining (tid x : Nat) (pg : Page) : Prop :=
  pg.state.loading = true ∧
  (∃ t, pg.tasks[tid]? = some t ∧ t.op = .addAddressToWhitelist ∧ t.waiting = some (.wait x)) ∧
  (∀ j t, j ≠ tid → pg.tasks[j]? = some t → t.op = .addAddressToWhitelist → t.pending = none) ∧
  TameInv pg

/-! ## Every log of every run is accepted by a checker that the bodies respect -/

@[simp] theorem Task.record_op (t : Task) (ev : Event) : (t.record ev).op = t.op := by
  cases t; rfl

@[simp] theorem Task.record_log (t : Task) (ev : Event) : (t.record ev).log = t.log ++ [ev] := by
  cases t; rfl

theorem Monitor.run_snoc {σ : Type} (m : Monitor σ) (log : List Event) (ev : Event)
    (st0 st : σ) (h : m.run st0 log = some st) :
    m.run st0 (log ++ [ev]) = m.step st ev := by
  induction log generalizing st0 with
  | nil =>
      simp only [Monitor.run, Option.some.injEq] at h
      subst h
      cases hs : m.step st0 ev <;> simp [Monitor.run, hs]
  | cons e es ih =>
      simp only [Monitor.run, List.cons_append] at h ⊢
      cases hs : m.step st0 e with
      | none => simp [hs] at h
      | some st1 =>
          simp only [hs] at h ⊢
          exact ih st1 h

theorem getElem?_lt_of_eq_some {β : Type 1} {l : List β} {i : Nat} {b : β}
    (h : l[i]? = some b) : i < l.length :=
  (List.getElem?_eq_some.1 h).1

theorem Monitor.advance_good {σ : Type} (m : Monitor σ) {α : Type} (p : Prog α) :
    ∀ (tid : Nat) (s : SessionState) (ts : List Task) (t : Task) (st : σ),
      ts[tid]? = some t → m.run (m.init t.op) t.log = some st → m.safe p st →
      (∀ i, i < ts.length → i ≠ tid → (Page.advance p tid s ts).tasks[i]? = ts[i]?) ∧
      ts.length ≤ (Page.advance p tid s ts).tasks.length ∧
      (∀ i t1, (Page.advance p tid s ts).tasks[i]? = some t1 →
          (i = tid ∨ ts.length ≤ i) → m.Good t1) := by
  induction p with
  | ret a =>
      intro tid s ts t st ht hrun _
      refine ⟨?_, ?_, ?_⟩
      · intro i _ hi
        simp [Page.advance, List.getElem?_modify_ne _ _ (Ne.symm hi)]
      · simp [Page.advance]
      · intro i t1 h1 hi
        rcases hi with rfl | hi
        · simp only [Page.advance, List.getElem?_modify_eq, ht, Option.map_eq_map,
            Option.map_some', Option.some.injEq] at h1
          subst h1
          rcases t with ⟨op, log, β, w⟩
          exact ⟨st, hrun, by intro req k hk; simp [Task.finish] at hk⟩
        · have := getElem?_lt_of_eq_some h1
          simp only [Page.advance, List.length_modify] at this
          omega
  | throw e =>
      intro tid s ts t st ht hrun hsafe
      obtain ⟨st1, hst1⟩ := hsafe
      refine ⟨?_, ?_, ?_⟩
      · intro i _ hi
        simp [Page.advance, List.getElem?_modify_ne _ _ (Ne.symm hi)]
      · simp [Page.advance]
      · intro i t1 h1 hi
        rcases hi with rfl | hi
        · simp only [Page.advance, List.getElem?_modify_eq, ht, Option.map_eq_map,
            Option.map_some', Option.some.injEq] at h1
          subst h1
          rcases t with ⟨op, log, β, w⟩
          refine ⟨st1, ?_, by intro req k hk; simp [Task.finish, Task.record] at hk⟩
          simp only [Task.record, Task.finish]
          rw [m.run_snoc log _ _ st hrun]
          exact hst1
        · have := getElem?_lt_of_eq_some h1
          simp only [Page.advance, List.length_modify] at this
          omega
  | await req k ih =>
      intro tid s ts t st ht hrun hsafe
      obtain ⟨st1, hst1, hk⟩ := hsafe
      refine ⟨?_, ?_, ?_⟩
      · intro i _ hi
        simp [Page.advance, List.getElem?_modify_ne _ _ (Ne.symm hi)]
      · simp [Page.advance]
      · intro i t1 h1 hi
        rcases hi with rfl | hi
        · simp only [Page.advance, List.getElem?_modify_eq, ht, Option.map_eq_map,
            Option.map_some', Option.some.injEq] at h1
          subst h1
          rcases t with ⟨op, log, β, w⟩
          refine ⟨st1, ?_, ?_⟩
          · simp only [Task.suspend]
            rw [m.run_snoc log _ _ st hrun]
            exact hst1
          · intro req1 k1 hk1 r
            simp only [Task.suspend, Option.some.injEq, Prod.mk.injEq] at hk1
            obtain ⟨rfl, rfl⟩ := hk1
            exact hk r
        · have := getElem?_lt_of_eq_some h1
          simp only [Page.advance, List.length_modify] at this
          omega
  | effect e k ih =>
      intro tid s ts t st ht hrun hsafe
      obtain ⟨st1, hst1, hk⟩ := hsafe
      have ht1 : (ts.modify (fun t => t.record (.did e)) tid)[tid]? = some (t.record (.did e)) := by
        simp [List.getElem?_modify_eq, ht]
      have hrun1 : m.run (m.init (t.record (.did e)).op) (t.record (.did e)).log = some st1 := by
        simp only [Task.record_op, Task.record_log]
        rw [m.run_snoc t.log _ _ st hrun]
        exact hst1
      obtain ⟨ha, hb, hc⟩ := ih tid (e.apply s) _ _ st1 ht1 hrun1 hk
      simp only [List.length_modify] at ha hb hc
      refine ⟨?_, ?_, ?_⟩
      · intro i hlt hi
        simp only [Page.advance]
        rw [ha i hlt hi, List.getElem?_modify_ne _ _ (Ne.symm hi)]
      · simpa [Page.advance] using hb
      · intro i t1 h1 hi
        exact hc i t1 (by simpa [Page.advance] using h1) hi
  | fork op body k ihb ihk =>
      intro tid s ts t st ht hrun hsafe
      obtain ⟨hbody, st1, hst1, hk⟩ := hsafe
      have htid : tid < ts.length := getElem?_lt_of_eq_some ht
      have hnew : (ts.modify (fun t => t.record (.forked op)) tid ++ [Task.new op])[ts.length]?
          = some (Task.new op) := by
        rw [List.getElem?_append_right (by simp)]
        simp
      obtain ⟨ha1, hb1, hc1⟩ := ihb ts.length s _ (Task.new op) (m.init op) hnew
        (by simp [Task.new, Monitor.run]) hbody
      simp only [List.length_append, List.length_modify, List.length_singleton] at ha1 hb1 hc1
      rcases hpg : Page.advance body ts.length s
          (ts.modify (fun t => t.record (.forked op)) tid ++ [Task.new op]) with ⟨s1, ts1⟩
      rw [hpg] at ha1 hb1 hc1
      simp only at ha1 hb1 hc1
      have ht1 : ts1[tid]? = some (t.record (.forked op)) := by
        rw [ha1 tid (by omega) (by omega), List.getElem?_append_left (by simpa using htid)]
        simp [List.getElem?_modify_eq, ht]
      have hrun1 : m.run (m.init (t.record (.forked op)).op) (t.record (.forked op)).log
          = some st1 := by
        simp only [Task.record_op, Task.record_log]
        rw [m.run_snoc t.log _ _ st hrun]
        exact hst1
      obtain ⟨ha2, hb2, hc2⟩ := ihk tid s1 ts1 _ st1 ht1 hrun1 hk
      have hadv : Page.advance (Prog.fork op body k) tid s ts = Page.advance k tid s1 ts1 := by
        simp only [Page.advance, hpg]
      rw [hadv]
      refine ⟨?_, ?_, ?_⟩
      · intro i hlt hi
        rw [ha2 i (by omega) hi, ha1 i (by omega) (by omega),
          List.getElem?_append_left (by simpa using hlt),
          List.getElem?_modify_ne _ _ (Ne.symm hi)]
      · omega
      · intro i t1 h1 hi
        by_cases h2 : i = tid ∨ ts1.length ≤ i
        · exact hc2 i t1 h1 h2
        · have h3 : i ≠ tid := fun h => h2 (Or.inl h)
          have h4 : i < ts1.length := by omega
          rw [ha2 i h4 h3] at h1
          refine hc1 i t1 h1 ?_
          rcases hi with hi | hi
          · exact absurd hi h3
          · omega

theorem Monitor.inv_start {σ : Type} (m : Monitor σ)
    (hsafe : ∀ op : Op, m.safe op.body (m.init op)) (pg : Page) (op : Op)
    (h : m.Inv pg) : m.Inv (pg.start op) := by
  rcases pg with ⟨s, ts⟩
  have hnew : (ts ++ [Task.new op])[ts.length]? = some (Task.new op) := by
    rw [List.getElem?_append_right (by simp)]
    simp
  obtain ⟨ha, _, hc⟩ := m.advance_good op.body ts.length s _ (Task.new op) (m.init op) hnew
    (by simp [Task.new, Monitor.run]) (hsafe op)
  simp only [List.length_append, List.length_singleton] at ha hc
  intro i t hi
  simp only [Page.start] at hi
  by_cases h1 : i < ts.length
  · rw [ha i (by omega) (by omega), List.getElem?_append_left h1] at hi
    exact h i t hi
  · exact hc i t hi (by omega)

theorem Monitor.inv_settle {σ : Type} (m : Monitor σ) (pg : Page) (tid : Nat) (r : Response)
    (h : m.Inv pg) : m.Inv (pg.settle tid r) := by
  rcases pg with ⟨s, ts⟩
  simp only [Page.settle]
  cases htid : ts[tid]? with
  | none => simpa using h
  | some t =>
      rcases t with ⟨op, log, β, w⟩
      cases w with
      | none => simpa using h
      | some w =>
          rcases w with ⟨req, k⟩
          simp only
          obtain ⟨st, hrun, hnext⟩ := h tid _ htid
          obtain ⟨st2, hst2, hk⟩ := hnext req k rfl r
          have ht1 : (ts.modify (fun t => t.record (.settled req r)) tid)[tid]?
              = some (Task.record ⟨op, log, β, some (req, k)⟩ (.settled req r)) := by
            simp [List.getElem?_modify_eq, htid]
          obtain ⟨ha, _, hc⟩ := m.advance_good (k r) tid s _ _ st2 ht1
            (by
              simp only [Task.record_op, Task.record_log]
              rw [m.run_snoc log _ _ st hrun]
              exact hst2) hk
          simp only [List.length_modify] at ha hc
          intro i t hi
          by_cases h1 : i = tid ∨ ts.length ≤ i
          · exact hc i t hi h1
          · have h2 : i ≠ tid := fun e => h1 (Or.inl e)
            rw [ha i (by omega) h2, List.getElem?_modify_ne _ _ (Ne.symm h2)] at hi
            exact h i t hi

theorem Monitor.inv_step {σ : Type} (m : Monitor σ)
    (hsafe : ∀ op : Op, m.safe op.body (m.init op)) (pg : Page) (a : Action)
    (h : m.Inv pg) : m.Inv (pg.step a) := by
  cases a with
  | useEffect =>
      simp only [Page.step, Page.useEffect]
      split
      · exact m.inv_start hsafe pg _ h
      · exact h
  | click =>
      simp only [Page.step, Page.click]
      split
      · exact m.inv_start hsafe pg _ h
      · exact h
  | settle tid r => exact m.inv_settle pg tid r h

theorem Monitor.inv_run {σ : Type} (m : Monitor σ)
    (hsafe : ∀ op : Op, m.safe op.body (m.init op)) (as : List Action) (pg : Page)
    (h : m.Inv pg) : m.Inv (pg.run as) := by
  induction as generalizing pg with
  | nil => exact h
  | cons a as ih => exact ih (pg.step a) (m.inv_step hsafe pg a h)

theorem Monitor.inv_idle {σ : Type} (m : Monitor σ) (s : SessionState) : m.Inv (Page.idle s) := by
  intro i t hi
  simp [Page.idle] at hi

theorem chainMonitor_safe_getNumberOfWhitelisted :
    chainMonitor.safe getNumberOfWhitelisted false := by
  simp [getNumberOfWhitelisted, getProviderOrSigner, web3ModalConnect, getNetwork,
    contractNumAddressesWhitelisted, bind, Prog.bind, Prog.tryCatch, pure, Prog.perform,
    Monitor.safe, chainMonitor, chainStep, Request.isContractCall]
  repeat' (first
    | (intro r; cases r <;>
        simp [bind, Prog.bind, Prog.tryCatch, pure, Prog.perform, Monitor.safe, chainStep,
          Request.isContractCall])
    | (split <;>
        simp [bind, Prog.bind, Prog.tryCatch, pure, Prog.perform, Monitor.safe, chainStep,
          Request.isContractCall, *]))

theorem chainMonitor_safe_checkIfAddressInWhitelist :
    chainMonitor.safe checkIfAddressInWhitelist false := by
  simp [checkIfAddressInWhitelist, getProviderOrSigner, web3ModalConnect, getNetwork,
    getAddress, contractWhitelistedAddresses, bind, Prog.bind, Prog.tryCatch, pure,
    Prog.perform, Monitor.safe, chainMonitor, chainStep, Request.isContractCall]
  repeat' (first
    | (intro r; cases r <;>
        simp [bind, Prog.bind, Prog.tryCatch, pure, Prog.perform, Monitor.safe, chainStep,
          Request.isContractCall])
    | (split <;>
        simp [bind, Prog.bind, Prog.tryCatch, pure, Prog.perform, Monitor.safe, chainStep,
          Request.isContractCall, *]))

theorem chainMonitor_safe_addAddressToWhitelist :
    chainMonitor.safe addAddressToWhitelist false := by
  simp [addAddressToWhitelist, getNumberOfWhitelisted, getProviderOrSigner, web3ModalConnect,
    getNetwork, contractAddAddressToWhitelist, txWait, contractNumAddressesWhitelisted, bind,
    Prog.bind, Prog.tryCatch, pure, Prog.perform, Monitor.safe, chainMonitor, chainStep,
    Request.isContractCall]
  repeat' (first
    | (intro r; cases r <;>
        simp [bind, Prog.bind, Prog.tryCatch, pure, Prog.perform, Monitor.safe, chainStep,
          Request.isContractCall])
    | (split <;>
        simp [bind, Prog.bind, Prog.tryCatch, pure, Prog.perform, Monitor.safe, chainStep,
          Request.isContractCall, *]))

theorem chainMonitor_safe_connectWallet : chainMonitor.safe connectWallet false := by
  have h1 := chainMonitor_safe_checkIfAddressInWhitelist
  have h2 := chainMonitor_safe_getNumberOfWhitelisted
  simp [checkIfAddressInWhitelist, getProviderOrSigner, web3ModalConnect, getNetwork,
    getAddress, contractWhitelistedAddresses, bind, Prog.bind, Prog.tryCatch, pure,
    Prog.perform, Monitor.safe, chainMonitor, chainStep, Request.isContractCall] at h1
  simp [getNumberOfWhitelisted, getProviderOrSigner, web3ModalConnect, getNetwork,
    contractNumAddressesWhitelisted, bind, Prog.bind, Prog.tryCatch, pure, Prog.perform,
    Monitor.safe, chainMonitor, chainStep, Request.isContractCall] at h2
  simp [connectWallet, getProviderOrSigner, web3ModalConnect, getNetwork, bind, Prog.bind,
    Prog.tryCatch, pure, Prog.perform, Monitor.safe, chainMonitor, chainStep,
    Request.isContractCall]
  repeat' (first
    | exact ⟨h1, h2⟩
    | (intro r; cases r <;>
        simp [bind, Prog.bind, Prog.tryCatch, pure, Prog.perform, Monitor.safe, chainStep,
          Request.isContractCall])
    | (split <;>
        simp [bind, Prog.bind, Prog.tryCatch, pure, Prog.perform, Monitor.safe, chainStep,
          Request.isContractCall, *]))

theorem chainMonitor_safe (op : Op) : chainMonitor.safe op.body (chainMonitor.init op) := by
  cases op
  · exact chainMonitor_safe_connectWallet
  · exact chainMonitor_safe_checkIfAddressInWhitelist
  · exact chainMonitor_safe_getNumberOfWhitelisted
  · exact chainMonitor_safe_addAddressToWhitelist

theorem chainMonitor_guard (pre : List Event) :
    ∀ (ok : Bool) (st : Bool) (req : Request) (post : List Event),
      chainMonitor.run ok (pre ++ .issued req :: post) = some st →
      req.isContractCall = true →
      (ok = true ∧ ∀ q r, Event.settled (.getNetwork q) r ∉ pre) ∨
      ∃ pre1 p pre2, pre = pre1 ++ .settled (.getNetwork p) (.network 5) :: pre2 ∧
        ∀ q r, Event.settled (.getNetwork q) r ∉ pre2 := by
  induction pre with
  | nil =>
      intro ok st req post h hreq
      left
      cases ok
      · simp [Monitor.run, chainMonitor, chainStep, hreq] at h
      · simp
  | cons e pre ih =>
      intro ok st req post h hreq
      simp only [List.cons_append, Monitor.run] at h
      cases hs : chainMonitor.step ok e with
      | none => simp [hs] at h
      | some ok1 =>
          simp only [hs] at h
          rcases ih ok1 st req post h hreq with ⟨hok, hno⟩ | ⟨pre1, p, pre2, hpre, hno⟩
          · by_cases hchk : ∃ q r, e = .settled (.getNetwork q) r
            · obtain ⟨q, r, rfl⟩ := hchk
              right
              simp only [chainMonitor, chainStep, Option.some.injEq] at hs
              subst hs
              simp only [decide_eq_true_eq] at hok
              subst hok
              exact ⟨[], q, pre, rfl, hno⟩
            · left
              have hne : ∀ q r, e ≠ .settled (.getNetwork q) r := fun q r he => hchk ⟨q, r, he⟩
              refine ⟨?_, ?_⟩
              · cases e with
                | settled rq r =>
                    cases rq <;> first
                      | exact absurd rfl (hne _ _)
                      | (simp only [chainMonitor, chainStep, Option.some.injEq] at hs
                         subst hs; exact hok)
                | issued rq =>
                    simp only [chainMonitor, chainStep] at hs
                    split at hs
                    · cases hs
                    · simp only [Option.some.injEq] at hs
                      subst hs; exact hok
                | did _ =>
                    simp only [chainMonitor, chainStep, Option.some.injEq] at hs
                    subst hs; exact hok
                | forked _ =>
                    simp only [chainMonitor, chainStep, Option.some.injEq] at hs
                    subst hs; exact hok
                | unhandled _ =>
                    simp only [chainMonitor, chainStep, Option.some.injEq] at hs
                    subst hs; exact hok
              · intro q r hmem
                rcases List.mem_cons.1 hmem with he | hmem
                · exact hne q r he.symm
                · exact hno q r hmem
          · right
            exact ⟨e :: pre1, p, pre2, by simp [hpre], hno⟩

theorem Interleaves.nil_left {α : Type} (ys : List α) : Interleaves [] ys ys := by
  induction ys with
  | nil => exact .nil
  | cons y ys ih => exact .right y ih

theorem Interleaves.eq_of_nil_left {α : Type} {ys zs : List α} (h : Interleaves [] ys zs) :
    zs = ys := by
  generalize hx : ([] : List α) = xs at h
  induction h with
  | nil => rfl
  | left x _ _ => cases hx
  | right y _ ih => rw [ih hx]

theorem mem_interleavingsAux {α : Type} (x : α) (xs : List α)
    (others : List α → List (List α))
    (hothers : ∀ ys zs, zs ∈ others ys ↔ Interleaves xs ys zs) (ys zs : List α) :
    zs ∈ interleavingsAux x others ys ↔ Interleaves (x :: xs) ys zs := by
  induction ys generalizing zs with
  | nil =>
      simp only [interleavingsAux, List.mem_map]
      constructor
      · rintro ⟨w, hw, rfl⟩
        exact .left x ((hothers _ _).1 hw)
      · intro h
        cases h with
        | left _ h1 => exact ⟨_, (hothers _ _).2 h1, rfl⟩
  | cons y ys ih =>
      simp only [interleavingsAux, List.mem_append, List.mem_map]
      constructor
      · rintro (⟨w, hw, rfl⟩ | ⟨w, hw, rfl⟩)
        · exact .left x ((hothers _ _).1 hw)
        · exact .right y ((ih w).1 hw)
      · intro h
        cases h with
        | left _ h1 => exact Or.inl ⟨_, (hothers _ _).2 h1, rfl⟩
        | right _ h1 => exact Or.inr ⟨_, (ih _).2 h1, rfl⟩

theorem mem_interleavings {α : Type} (xs ys zs : List α) :
    zs ∈ interleavings xs ys ↔ Interleaves xs ys zs := by
  induction xs generalizing ys zs with
  | nil =>
      simp only [interleavings, List.mem_singleton]
      constructor
      · rintro rfl
        exact Interleaves.nil_left _
      · exact Interleaves.eq_of_nil_left
  | cons x xs ih =>
      simp only [interleavings]
      exact mem_interleavingsAux x xs _ (fun ys zs => ih ys zs) ys zs

set_option maxHeartbeats 16000000 in
/-- After `connectWallet` has passed the chain check, the two reads it started
run to completion in any interleaving with the same final state and logs. -/
theorem connect_and_reads (p0 p1 p2 a n : Nat) (b : Bool) (sched : List Action)
    (h : sched ∈ interleavings
      (settles 1 [.provider p1, .network 5, .address a, .member b])
      (settles 2 [.provider p2, .network 5, .count n])) :
    ((Page.idle .initial).run
      (.useEffect :: .settle 0 (.provider p0) :: .settle 0 (.network 5) :: sched)).state
      = ⟨true, b, false, n⟩ ∧
    ((Page.idle .initial).run
      (.useEffect :: .settle 0 (.provider p0) :: .settle 0 (.network 5) :: sched)).tasks.map
        Task.view =
      [(.connectWallet,
        connectLog p0 ++ [.did (.setWalletConnected true), .forked .checkIfAddressInWhitelist,
          .forked .getNumberOfWhitelisted], none),
       (.checkIfAddressInWhitelist,
        connectLog p1 ++ [.issued (.getAddress (.signer p1)),
          .settled (.getAddress (.signer p1)) (.address a),
          .issued (.whitelistedAddresses (.signer p1) a),
          .settled (.whitelistedAddresses (.signer p1) a) (.member b),
          .did (.setJoinedWhitelist b)], none),
       (.getNumberOfWhitelisted,
        connectLog p2 ++ [.issued (.numAddressesWhitelisted (.web3Provider p2)),
          .settled (.numAddressesWhitelisted (.web3Provider p2)) (.count n),
          .did (.setNumberOfWhitelisted n)], none)] := by
  simp only [interleavings, interleavingsAux, settles, List.map, List.cons_append, List.nil_append,
    List.mem_cons, List.mem_singleton, List.not_mem_nil, or_false] at h
  rcases h with h | h | h | h | h | h | h | h | h | h | h | h | h | h | h | h | h | h | h | h | h | h | h | h | h | h | h | h | h | h | h | h | h | h | h <;> subst h <;> exact ⟨rfl, rfl⟩

theorem Page.settle_finished (pg : Page) (tid : Nat) (r : Response)
    (h : ∀ t ∈ pg.tasks, t.pending = none) : pg.settle tid r = pg := by
  rcases pg with ⟨s, ts⟩
  simp only [Page.settle]
  cases htid : ts[tid]? with
  | none => rfl
  | some t =>
      rcases t with ⟨op, log, β, w⟩
      have := h _ (List.getElem?_mem htid)
      simp only at this
      subst this
      rfl

theorem Page.run_settles_finished (pg : Page) (tid : Nat) (rs : List Response)
    (h : ∀ t ∈ pg.tasks, t.pending = none) :
    pg.run (rs.map (Action.settle tid)) = pg := by
  induction rs with
  | nil => rfl
  | cons r rs ih =>
      simp only [List.map, Page.run, List.foldl, Page.step]
      rw [Page.settle_finished pg tid r h]
      exact ih

theorem Page.solo_append (s : SessionState) (op : Op) (rs1 rs2 : List Response) :
    Page.solo s op (rs1 ++ rs2) = (Page.solo s op rs1).run (rs2.map (Action.settle 0)) := by
  simp [Page.solo, Page.run, List.foldl_append]

theorem solo_wrong_chain (op : Op) (s : SessionState) (p c : Nat) (rest : List Response)
    (h : c ≠ 5) :
    (Page.solo s op (.provider p :: .network c :: rest)).tasks.map Task.view =
      [(op,
        [.issued .connect, .settled .connect (.provider p),
         .issued (.getNetwork p), .settled (.getNetwork p) (.network c),
         .did .alert, .did (.consoleError .changeNetwork)],
        none)] := by
  have h2 : Page.solo s op (.provider p :: .network c :: rest)
      = Page.solo s op [.provider p, .network c] := by
    have := Page.solo_append s op [.provider p, .network c] rest
    simp only [List.cons_append, List.nil_append] at this
    rw [this]
    apply Page.run_settles_finished
    cases s
    cases op <;>
    simp [Page.solo, Page.run, Page.step, Page.start, Page.idle, Page.settle, Op.body,
      connectWallet, checkIfAddressInWhitelist, getNumberOfWhitelisted, addAddressToWhitelist,
      getProviderOrSigner, web3ModalConnect, getNetwork, bind, Prog.bind,
      Prog.tryCatch, Page.advance, h, Prog.perform, Effect.apply, Task.new, Task.record,
      Task.suspend, Task.finish]
  rw [h2]
  cases s
  cases op <;>
  simp [Page.solo, Page.run, Page.step, Page.start, Page.idle, Page.settle, Op.body,
    connectWallet, checkIfAddressInWhitelist, getNumberOfWhitelisted, addAddressToWhitelist,
    getProviderOrSigner, web3ModalConnect, getNetwork, bind, Prog.bind,
    Prog.tryCatch, Page.advance, h, Prog.perform, Effect.apply, Task.new, Task.record,
    Task.suspend, Task.finish, Task.view, Task.waiting]

theorem chainMonitor_accepts (s : SessionState) (as : List Action) (log : List Event)
    (h : log ∈ ((Page.idle s).run as).tasks.map Task.log) :
    ∃ st, chainMonitor.run false log = some st := by
  obtain ⟨t, ht, rfl⟩ := List.mem_map.1 h
  obtain ⟨i, hi⟩ := List.getElem?_of_mem ht
  obtain ⟨st, hrun, _⟩ :=
    chainMonitor.inv_run chainMonitor_safe as _ (chainMonitor.inv_idle s) i t hi
  exact ⟨st, hrun⟩

theorem joinMonitor_safe_getNumberOfWhitelisted (op : Op) (j : Bool) :
    joinMonitor.safe getNumberOfWhitelisted (op, j) := by
  simp [getNumberOfWhitelisted, getProviderOrSigner, web3ModalConnect, getNetwork,
    contractNumAddressesWhitelisted, bind, Prog.bind, Prog.tryCatch, pure, Prog.perform,
    Monitor.safe, joinMonitor, joinStep, Event.confirms]
  repeat' (first
    | (intro r; cases r <;>
        simp [bind, Prog.bind, Prog.tryCatch, pure, Prog.perform, Monitor.safe, joinStep, Event.confirms])
    | (split <;>
        simp [bind, Prog.bind, Prog.tryCatch, pure, Prog.perform, Monitor.safe, joinStep, Event.confirms, *]))

theorem joinMonitor_safe_checkIfAddressInWhitelist :
    joinMonitor.safe checkIfAddressInWhitelist (.checkIfAddressInWhitelist, false) := by
  simp [checkIfAddressInWhitelist, getProviderOrSigner, web3ModalConnect, getNetwork,
    getAddress, contractWhitelistedAddresses, bind, Prog.bind, Prog.tryCatch, pure,
    Prog.perform, Monitor.safe, joinMonitor, joinStep, Event.confirms]
  repeat' (first
    | (intro r; cases r <;>
        simp [bind, Prog.bind, Prog.tryCatch, pure, Prog.perform, Monitor.safe, joinStep, Event.confirms])
    | (rename_i b; cases b <;>
        simp [bind, Prog.bind, Prog.tryCatch, pure, Prog.perform, Monitor.safe, joinStep, Event.confirms]))

theorem joinMonitor_safe_addAddressToWhitelist :
    joinMonitor.safe addAddressToWhitelist (.addAddressToWhitelist, false) := by
  simp [addAddressToWhitelist, getNumberOfWhitelisted, getProviderOrSigner, web3ModalConnect,
    getNetwork, contractAddAddressToWhitelist, txWait, contractNumAddressesWhitelisted, bind,
    Prog.bind, Prog.tryCatch, pure, Prog.perform, Monitor.safe, joinMonitor, joinStep, Event.confirms]
  repeat' (first
    | (intro r; cases r <;>
        simp [bind, Prog.bind, Prog.tryCatch, pure, Prog.perform, Monitor.safe, joinStep, Event.confirms])
    | (split <;>
        simp [bind, Prog.bind, Prog.tryCatch, pure, Prog.perform, Monitor.safe, joinStep, Event.confirms, *]))

theorem joinMonitor_safe_connectWallet :
    joinMonitor.safe connectWallet (.connectWallet, false) := by
  have h1 := joinMonitor_safe_checkIfAddressInWhitelist
  have h2 := joinMonitor_safe_getNumberOfWhitelisted .getNumberOfWhitelisted false
  simp [checkIfAddressInWhitelist, getProviderOrSigner, web3ModalConnect, getNetwork,
    getAddress, contractWhitelistedAddresses, bind, Prog.bind, Prog.tryCatch, pure,
    Prog.perform, Monitor.safe, joinMonitor, joinStep, Event.confirms] at h1
  simp [getNumberOfWhitelisted, getProviderOrSigner, web3ModalConnect, getNetwork,
    contractNumAddressesWhitelisted, bind, Prog.bind, Prog.tryCatch, pure, Prog.perform,
    Monitor.safe, joinMonitor, joinStep, Event.confirms] at h2
  simp [connectWallet, getProviderOrSigner, web3ModalConnect, getNetwork, bind, Prog.bind,
    Prog.tryCatch, pure, Prog.perform, Monitor.safe, joinMonitor, joinStep, Event.confirms]
  repeat' (first
    | exact ⟨h1, h2⟩
    | (intro r; cases r <;>
        simp [bind, Prog.bind, Prog.tryCatch, pure, Prog.perform, Monitor.safe, joinStep, Event.confirms])
    | (split <;>
        simp [bind, Prog.bind, Prog.tryCatch, pure, Prog.perform, Monitor.safe, joinStep, Event.confirms, *]))

theorem joinMonitor_safe (op : Op) : joinMonitor.safe op.body (joinMonitor.init op) := by
  cases op
  · exact joinMonitor_safe_connectWallet
  · exact joinMonitor_safe_checkIfAddressInWhitelist
  · exact joinMonitor_safe_getNumberOfWhitelisted _ _
  · exact joinMonitor_safe_addAddressToWhitelist

theorem Effect.apply_joined (e : Effect) (s : SessionState)
    (h : (e.apply s).joinedWhitelist = true) :
    e = .setJoinedWhitelist true ∨ s.joinedWhitelist = true := by
  rcases s with ⟨w, j, l, n⟩
  cases e with
  | setJoinedWhitelist b => cases b <;> simp_all [Effect.apply]
  | _ => right; simpa [Effect.apply] using h

theorem joinStep_snd (st st1 : Op × Bool) (ev : Event) (h : joinStep st ev = some st1)
    (hev : ev.confirms st.1 = false) : st1 = st := by
  unfold joinStep at h
  split at h
  · split at h
    · simpa using h.symm
    · cases h
  · simp only [hev, Bool.or_false, Option.some.injEq] at h
    exact h.symm

theorem joinMonitor_flip {α : Type} (p : Prog α) :
    ∀ (tid : Nat) (s : SessionState) (ts : List Task) (st : Op × Bool),
      joinMonitor.safe p st →
      (Page.advance p tid s ts).state.joinedWhitelist = true →
      s.joinedWhitelist = true ∨ st.2 = true := by
  induction p with
  | ret a => intro tid s ts st _ h; left; simpa [Page.advance] using h
  | throw e => intro tid s ts st _ h; left; simpa [Page.advance] using h
  | await req k _ => intro tid s ts st _ h; left; simpa [Page.advance] using h
  | effect e k ih =>
      intro tid s ts st hsafe h
      obtain ⟨st1, hst1, hk⟩ := hsafe
      simp only [Page.advance] at h
      have hst : st1 = st := joinStep_snd st st1 (.did e) hst1 (by simp [Event.confirms])
      subst hst
      rcases ih tid _ _ st1 hk h with h1 | h1
      · rcases Effect.apply_joined e s h1 with rfl | h2
        · right
          simp only [joinMonitor, joinStep, if_true] at hst1
          split at hst1
          · assumption
          · cases hst1
        · exact Or.inl h2
      · exact Or.inr h1
  | fork op body k ihb ihk =>
      intro tid s ts st hsafe h
      obtain ⟨hbody, st1, hst1, hk⟩ := hsafe
      have hst : st1 = st := joinStep_snd st st1 (.forked op) hst1 (by simp [Event.confirms])
      subst hst
      simp only [Page.advance] at h
      rcases hpg : Page.advance body ts.length s
          (ts.modify (fun t => t.record (.forked op)) tid ++ [Task.new op]) with ⟨s1, ts1⟩
      rw [hpg] at h
      simp only at h
      rcases ihk tid s1 ts1 st1 hk h with h1 | h1
      · have h2 := ihb ts.length s _ _ hbody (by rw [hpg]; exact h1)
        rcases h2 with h2 | h2
        · exact Or.inl h2
        · simp [joinMonitor] at h2
      · exact Or.inr h1

theorem joinMonitor_run (log : List Event) :
    ∀ (op : Op) (j : Bool) (st : Op × Bool), joinMonitor.run (op, j) log = some st →
      st = (op, j || log.any (Event.confirms op)) := by
  induction log with
  | nil => intro op j st h; simp [Monitor.run] at h; simp [← h]
  | cons e es ih =>
      intro op j st h
      simp only [Monitor.run] at h
      cases hs : joinMonitor.step (op, j) e with
      | none => simp [hs] at h
      | some st1 =>
          simp only [hs] at h
          have h1 : st1 = (op, j || e.confirms op) := by
            simp only [joinMonitor, joinStep] at hs
            split at hs
            · split at hs
              · simp only [Option.some.injEq] at hs
                subst hs
                simp_all [Event.confirms]
              · cases hs
            · simpa using hs.symm
          subst h1
          rw [ih op _ st h]
          simp [Bool.or_assoc]

theorem confirms_any (op : Op) (log : List Event) (h : log.any (Event.confirms op) = true) :
    (op = .addAddressToWhitelist ∧ ∃ x, Event.settled (.wait x) .receipt ∈ log) ∨
    (op = .checkIfAddressInWhitelist ∧
      ∃ g x, Event.settled (.whitelistedAddresses g x) (.member true) ∈ log) := by
  obtain ⟨ev, hmem, hev⟩ := List.any_eq_true.1 h
  unfold Event.confirms at hev
  split at hev
  · left; exact ⟨by simpa using hev, _, hmem⟩
  · right; exact ⟨by simpa using hev, _, _, hmem⟩
  · cases hev

theorem start_keeps_joined (pg : Page) (op : Op)
    (h : (pg.start op).state.joinedWhitelist = true) : pg.state.joinedWhitelist = true := by
  rcases pg with ⟨s, ts⟩
  rcases joinMonitor_flip op.body _ s _ _ (joinMonitor_safe op) h with h1 | h1
  · exact h1
  · simp [joinMonitor] at h1

/-! ## A join being mined keeps `loading` set -/

theorem Page.advance_slot {α : Type} (p : Prog α) :
    ∀ (tid : Nat) (s : SessionState) (ts : List Task) (t : Task),
      ts[tid]? = some t →
      (∀ i, i < ts.length → i ≠ tid → (Page.advance p tid s ts).tasks[i]? = ts[i]?) ∧
      ts.length ≤ (Page.advance p tid s ts).tasks.length ∧
      (Page.advance p tid s ts).tasks[tid]? = some (Task.advance p t) := by
  induction p with
  | ret a =>
      intro tid s ts t ht
      refine ⟨?_, ?_, ?_⟩
      · intro i _ hi
        simp [Page.advance, List.getElem?_modify_ne _ _ (Ne.symm hi)]
      · simp [Page.advance]
      · simp [Page.advance, List.getElem?_modify_eq, ht, Task.advance]
  | throw e =>
      intro tid s ts t ht
      refine ⟨?_, ?_, ?_⟩
      · intro i _ hi
        simp [Page.advance, List.getElem?_modify_ne _ _ (Ne.symm hi)]
      · simp [Page.advance]
      · simp [Page.advance, List.getElem?_modify_eq, ht, Task.advance]
  | await req k ih =>
      intro tid s ts t ht
      refine ⟨?_, ?_, ?_⟩
      · intro i _ hi
        simp [Page.advance, List.getElem?_modify_ne _ _ (Ne.symm hi)]
      · simp [Page.advance]
      · simp [Page.advance, List.getElem?_modify_eq, ht, Task.advance]
  | effect e k ih =>
      intro tid s ts t ht
      have ht1 : (ts.modify (fun t => t.record (.did e)) tid)[tid]? = some (t.record (.did e)) := by
        simp [List.getElem?_modify_eq, ht]
      obtain ⟨ha, hb, hc⟩ := ih tid (e.apply s) _ _ ht1
      simp only [List.length_modify] at ha hb
      refine ⟨?_, ?_, ?_⟩
      · intro i hlt hi
        simp only [Page.advance]
        rw [ha i hlt hi, List.getElem?_modify_ne _ _ (Ne.symm hi)]
      · simpa [Page.advance] using hb
      · simpa [Page.advance, Task.advance] using hc
  | fork op body k ihb ihk =>
      intro tid s ts t ht
      have htid : tid < ts.length := getElem?_lt_of_eq_some ht
      have hnew : (ts.modify (fun t => t.record (.forked op)) tid ++ [Task.new op])[ts.length]?
          = some (Task.new op) := by
        rw [List.getElem?_append_right (by simp)]
        simp
      obtain ⟨ha1, hb1, _⟩ := ihb ts.length s _ (Task.new op) hnew
      simp only [List.length_append, List.length_modify, List.length_singleton] at ha1 hb1
      rcases hpg : Page.advance body ts.length s
          (ts.modify (fun t => t.record (.forked op)) tid ++ [Task.new op]) with ⟨s1, ts1⟩
      rw [hpg] at ha1 hb1
      simp only at ha1 hb1
      have ht1 : ts1[tid]? = some (t.record (.forked op)) := by
        rw [ha1 tid (by omega) (by omega), List.getElem?_append_left (by simpa using htid)]
        simp [List.getElem?_modify_eq, ht]
      obtain ⟨ha2, hb2, hc2⟩ := ihk tid s1 ts1 _ ht1
      have hadv : Page.advance (Prog.fork op body k) tid s ts = Page.advance k tid s1 ts1 := by
        simp only [Page.advance, hpg]
      rw [hadv]
      refine ⟨?_, ?_, ?_⟩
      · intro i hlt hi
        rw [ha2 i (by omega) hi, ha1 i (by omega) (by omega),
          List.getElem?_append_left (by simpa using hlt),
          List.getElem?_modify_ne _ _ (Ne.symm hi)]
      · omega
      · simpa [Task.advance] using hc2

theorem Page.start_slot (pg : Page) (op : Op) :
    (pg.start op).tasks[pg.tasks.length]? = some (Task.advance op.body (Task.new op)) := by
  rcases pg with ⟨s, ts⟩
  have hnew : (ts ++ [Task.new op])[ts.length]? = some (Task.new op) := by
    rw [List.getElem?_append_right (by simp)]
    simp
  exact (Page.advance_slot op.body ts.length s _ _ hnew).2.2

theorem Page.settle_slot (pg : Page) (tid : Nat) (r : Response) (t : Task)
    (h : pg.tasks[tid]? = some t) : (pg.settle tid r).tasks[tid]? = some (t.settle r) := by
  rcases pg with ⟨s, ts⟩
  simp only at h
  rcases t with ⟨op, log, β, w⟩
  cases w with
  | none => simp [Page.settle, h, Task.settle]
  | some w =>
      rcases w with ⟨req, k⟩
      simp only [Page.settle, h, Task.settle]
      exact (Page.advance_slot (k r) tid s _ _ (by simp [List.getElem?_modify_eq, h])).2.2

theorem tame_getNumberOfWhitelisted (op : Op) :
    Tame op getNumberOfWhitelisted := by
  simp [getNumberOfWhitelisted, getProviderOrSigner, web3ModalConnect, getNetwork,
    contractNumAddressesWhitelisted, bind, Prog.bind, Prog.tryCatch, pure, Prog.perform, Tame]
  repeat' (first
    | (intro r; cases r <;>
        simp [bind, Prog.bind, Prog.tryCatch, pure, Prog.perform, Tame])
    | (split <;>
        simp [bind, Prog.bind, Prog.tryCatch, pure, Prog.perform, Tame, *]))

theorem tame_checkIfAddressInWhitelist (op : Op) :
    Tame op checkIfAddressInWhitelist := by
  simp [checkIfAddressInWhitelist, getProviderOrSigner, web3ModalConnect, getNetwork,
    getAddress, contractWhitelistedAddresses, bind, Prog.bind, Prog.tryCatch, pure,
    Prog.perform, Tame]
  repeat' (first
    | (intro r; cases r <;>
        simp [bind, Prog.bind, Prog.tryCatch, pure, Prog.perform, Tame])
    | (split <;>
        simp [bind, Prog.bind, Prog.tryCatch, pure, Prog.perform, Tame, *]))

theorem tame_addAddressToWhitelist :
    Tame .addAddressToWhitelist addAddressToWhitelist := by
  simp [addAddressToWhitelist, getNumberOfWhitelisted, getProviderOrSigner, web3ModalConnect,
    getNetwork, contractAddAddressToWhitelist, txWait, contractNumAddressesWhitelisted, bind,
    Prog.bind, Prog.tryCatch, pure, Prog.perform, Tame]
  repeat' (first
    | (intro r; cases r <;>
        simp [bind, Prog.bind, Prog.tryCatch, pure, Prog.perform, Tame])
    | (split <;>
        simp [bind, Prog.bind, Prog.tryCatch, pure, Prog.perform, Tame, *]))

theorem tame_connectWallet : Tame .connectWallet connectWallet := by
  have h1 := tame_checkIfAddressInWhitelist .checkIfAddressInWhitelist
  have h2 := tame_getNumberOfWhitelisted .getNumberOfWhitelisted
  simp [checkIfAddressInWhitelist, getProviderOrSigner, web3ModalConnect, getNetwork,
    getAddress, contractWhitelistedAddresses, bind, Prog.bind, Prog.tryCatch, pure,
    Prog.perform, Tame] at h1
  simp [getNumberOfWhitelisted, getProviderOrSigner, web3ModalConnect, getNetwork,
    contractNumAddressesWhitelisted, bind, Prog.bind, Prog.tryCatch, pure, Prog.perform,
    Tame] at h2
  simp [connectWallet, getProviderOrSigner, web3ModalConnect, getNetwork, bind, Prog.bind,
    Prog.tryCatch, pure, Prog.perform, Tame]
  repeat' (first
    | exact ⟨h1, h2⟩
    | (intro r; cases r <;>
        simp [bind, Prog.bind, Prog.tryCatch, pure, Prog.perform, Tame])
    | (split <;>
        simp [bind, Prog.bind, Prog.tryCatch, pure, Prog.perform, Tame, *]))

theorem tame_body (op : Op) : Tame op op.body := by
  cases op
  · exact tame_connectWallet
  · exact tame_checkIfAddressInWhitelist _
  · exact tame_getNumberOfWhitelisted _
  · exact tame_addAddressToWhitelist

theorem Effect.apply_loading (e : Effect) (s : SessionState) (h : ¬ ∃ b, e = .setLoading b) :
    (e.apply s).loading = s.loading := by
  rcases s with ⟨w, j, l, n⟩
  cases e with
  | setLoading b => exact absurd ⟨b, rfl⟩ h
  | _ => rfl

@[simp] theorem Task.finish_op (t : Task) : t.finish.op = t.op := by
  cases t; rfl

@[simp] theorem Task.suspend_op {α : Type} (t : Task) (req : Request) (k : Response → Prog α) :
    (t.suspend req k).op = t.op := by
  cases t; rfl

theorem tame_advance {α : Type} (p : Prog α) :
    ∀ (tid : Nat) (s : SessionState) (ts : List Task) (t : Task),
      ts[tid]? = some t → Tame t.op p →
      (∀ i, i < ts.length → i ≠ tid → (Page.advance p tid s ts).tasks[i]? = ts[i]?) ∧
      ts.length ≤ (Page.advance p tid s ts).tasks.length ∧
      (∀ t1, (Page.advance p tid s ts).tasks[tid]? = some t1 → t1.op = t.op ∧ TameTask t1) ∧
      (∀ i t1, (Page.advance p tid s ts).tasks[i]? = some t1 → ts.length ≤ i →
          t1.op ≠ .addAddressToWhitelist ∧ TameTask t1) ∧
      (t.op ≠ .addAddressToWhitelist →
          (Page.advance p tid s ts).state.loading = s.loading) := by
  induction p with
  | ret a =>
      intro tid s ts t ht _
      refine ⟨?_, ?_, ?_, ?_, ?_⟩
      · intro i _ hi
        simp [Page.advance, List.getElem?_modify_ne _ _ (Ne.symm hi)]
      · simp [Page.advance]
      · intro t1 h1
        simp only [Page.advance, List.getElem?_modify_eq, ht, Option.map_eq_map,
          Option.map_some', Option.some.injEq] at h1
        subst h1
        refine ⟨by simp, ?_⟩
        rcases t with ⟨op, log, β, w⟩
        intro req k hk
        simp [Task.finish] at hk
      · intro i t1 h1 hi
        have := getElem?_lt_of_eq_some h1
        simp only [Page.advance, List.length_modify] at this
        omega
      · intro _; rfl
  | throw e =>
      intro tid s ts t ht _
      refine ⟨?_, ?_, ?_, ?_, ?_⟩
      · intro i _ hi
        simp [Page.advance, List.getElem?_modify_ne _ _ (Ne.symm hi)]
      · simp [Page.advance]
      · intro t1 h1
        simp only [Page.advance, List.getElem?_modify_eq, ht, Option.map_eq_map,
          Option.map_some', Option.some.injEq] at h1
        subst h1
        refine ⟨by simp, ?_⟩
        rcases t with ⟨op, log, β, w⟩
        intro req k hk
        simp [Task.finish, Task.record] at hk
      · intro i t1 h1 hi
        have := getElem?_lt_of_eq_some h1
        simp only [Page.advance, List.length_modify] at this
        omega
      · intro _; rfl
  | await req k ih =>
      intro tid s ts t ht htame
      refine ⟨?_, ?_, ?_, ?_, ?_⟩
      · intro i _ hi
        simp [Page.advance, List.getElem?_modify_ne _ _ (Ne.symm hi)]
      · simp [Page.advance]
      · intro t1 h1
        simp only [Page.advance, List.getElem?_modify_eq, ht, Option.map_eq_map,
          Option.map_some', Option.some.injEq] at h1
        subst h1
        refine ⟨by simp, ?_⟩
        rcases t with ⟨op, log, β, w⟩
        intro req1 k1 hk1
        simp only [Task.suspend, Option.some.injEq, Prod.mk.injEq] at hk1
        obtain ⟨rfl, rfl⟩ := hk1
        exact htame
      · intro i t1 h1 hi
        have := getElem?_lt_of_eq_some h1
        simp only [Page.advance, List.length_modify] at this
        omega
      · intro _; rfl
  | effect e k ih =>
      intro tid s ts t ht htame
      obtain ⟨he, hk⟩ := htame
      have ht1 : (ts.modify (fun t => t.record (.did e)) tid)[tid]? = some (t.record (.did e)) := by
        simp [List.getElem?_modify_eq, ht]
      obtain ⟨ha, hb, hc, hd, hl⟩ := ih tid (e.apply s) _ _ ht1 (by simpa using hk)
      simp only [List.length_modify, Task.record_op] at ha hb hc hd hl
      refine ⟨?_, ?_, ?_, ?_, ?_⟩
      · intro i hlt hi
        simp only [Page.advance]
        rw [ha i hlt hi, List.getElem?_modify_ne _ _ (Ne.symm hi)]
      · simpa [Page.advance] using hb
      · intro t1 h1
        exact hc t1 (by simpa [Page.advance] using h1)
      · intro i t1 h1 hi
        exact hd i t1 (by simpa [Page.advance] using h1) hi
      · intro hop
        simp only [Page.advance]
        rw [hl hop]
        exact Effect.apply_loading e s (fun h => hop (he h))
  | fork op body k ihb ihk =>
      intro tid s ts t ht htame
      obtain ⟨hop1, hbody, hk⟩ := htame
      have htid : tid < ts.length := getElem?_lt_of_eq_some ht
      have hnew : (ts.modify (fun t => t.record (.forked op)) tid ++ [Task.new op])[ts.length]?
          = some (Task.new op) := by
        rw [List.getElem?_append_right (by simp)]
        simp
      obtain ⟨ha1, hb1, hc1, hd1, hl1⟩ := ihb ts.length s _ (Task.new op) hnew
        (by simpa [Task.new] using hbody)
      simp only [List.length_append, List.length_modify, List.length_singleton] at ha1 hb1 hc1 hd1
      rcases hpg : Page.advance body ts.length s
          (ts.modify (fun t => t.record (.forked op)) tid ++ [Task.new op]) with ⟨s1, ts1⟩
      rw [hpg] at ha1 hb1 hc1 hd1 hl1
      simp only at ha1 hb1 hc1 hd1 hl1
      have ht1 : ts1[tid]? = some (t.record (.forked op)) := by
        rw [ha1 tid (by omega) (by omega), List.getElem?_append_left (by simpa using htid)]
        simp [List.getElem?_modify_eq, ht]
      obtain ⟨ha2, hb2, hc2, hd2, hl2⟩ := ihk tid s1 ts1 _ ht1 (by simpa using hk)
      simp only [Task.record_op] at hc2 hl2
      have hadv : Page.advance (Prog.fork op body k) tid s ts = Page.advance k tid s1 ts1 := by
        simp only [Page.advance, hpg]
      rw [hadv]
      refine ⟨?_, ?_, ?_, ?_, ?_⟩
      · intro i hlt hi
        rw [ha2 i (by omega) hi, ha1 i (by omega) (by omega),
          List.getElem?_append_left (by simpa using hlt),
          List.getElem?_modify_ne _ _ (Ne.symm hi)]
      · omega
      · exact hc2
      · intro i t1 h1 hi
        by_cases h2 : ts1.length ≤ i
        · exact hd2 i t1 h1 h2
        · have h3 : i ≠ tid := by omega
          rw [ha2 i (by omega) h3] at h1
          by_cases h4 : i = ts.length
          · subst h4
            obtain ⟨hop, htame1⟩ := hc1 t1 h1
            refine ⟨?_, htame1⟩
            rw [hop]
            simpa [Task.new] using hop1
          · exact hd1 i t1 h1 (by omega)
      · intro hop
        rw [hl2 hop]
        exact hl1 (by simpa [Task.new] using hop1)

theorem tameInv_start (pg : Page) (op : Op) (h : TameInv pg) : TameInv (pg.start op) := by
  rcases pg with ⟨s, ts⟩
  have hnew : (ts ++ [Task.new op])[ts.length]? = some (Task.new op) := by
    rw [List.getElem?_append_right (by simp)]
    simp
  obtain ⟨ha, _, hc, hd, _⟩ := tame_advance op.body ts.length s _ (Task.new op) hnew
    (by simpa [Task.new] using tame_body op)
  simp only [List.length_append, List.length_singleton] at ha hd
  intro i t hi
  simp only [Page.start] at hi
  by_cases h1 : i < ts.length
  · rw [ha i (by omega) (by omega), List.getElem?_append_left h1] at hi
    exact h i t hi
  · by_cases h2 : i = ts.length
    · subst h2
      exact (hc t hi).2
    · exact (hd i t hi (by omega)).2

theorem tameInv_settle (pg : Page) (tid : Nat) (r : Response) (h : TameInv pg) :
    TameInv (pg.settle tid r) := by
  rcases pg with ⟨s, ts⟩
  simp only [Page.settle]
  cases htid : ts[tid]? with
  | none => simpa using h
  | some t =>
      rcases t with ⟨op, log, β, w⟩
      cases w with
      | none => simpa using h
      | some w =>
          rcases w with ⟨req, k⟩
          simp only
          have hk := (h tid _ htid req k rfl).2 r
          have ht1 : (ts.modify (fun t => t.record (.settled req r)) tid)[tid]?
              = some (Task.record ⟨op, log, β, some (req, k)⟩ (.settled req r)) := by
            simp [List.getElem?_modify_eq, htid]
          obtain ⟨ha, _, hc, hd, _⟩ := tame_advance (k r) tid s _ _ ht1 (by simpa using hk)
          simp only [List.length_modify] at ha hd
          intro i t hi
          by_cases h1 : i = tid
          · subst h1
            exact (hc t hi).2
          · by_cases h2 : ts.length ≤ i
            · exact (hd i t hi h2).2
            · rw [ha i (by omega) h1, List.getElem?_modify_ne _ _ (Ne.symm h1)] at hi
              exact h i t hi

theorem tameInv_step (pg : Page) (a : Action) (h : TameInv pg) : TameInv (pg.step a) := by
  cases a with
  | useEffect =>
      simp only [Page.step, Page.useEffect]
      split
      · exact tameInv_start pg _ h
      · exact h
  | click =>
      simp only [Page.step, Page.click]
      split
      · exact tameInv_start pg _ h
      · exact h
  | settle tid r => exact tameInv_settle pg tid r h

theorem tameInv_run (as : List Action) (pg : Page) (h : TameInv pg) : TameInv (pg.run as) := by
  induction as generalizing pg with
  | nil => exact h
  | cons a as ih => exact ih (pg.step a) (tameInv_step pg a h)

theorem tameInv_idle (s : SessionState) : TameInv (Page.idle s) := by
  intro i t hi
  simp [Page.idle] at hi

theorem mining_start (tid x : Nat) (pg : Page) (op : Op) (hop : op ≠ .addAddressToWhitelist)
    (h : Mining tid x pg) : Mining tid x (pg.start op) := by
  obtain ⟨hl, ⟨t0, ht0, hop0, hw0⟩, hothers, hinv⟩ := h
  have hinv1 := tameInv_start pg op hinv
  rcases pg with ⟨s, ts⟩
  have htid : tid < ts.length := getElem?_lt_of_eq_some ht0
  have hnew : (ts ++ [Task.new op])[ts.length]? = some (Task.new op) := by
    rw [List.getElem?_append_right (by simp)]
    simp
  obtain ⟨ha, _, hc, hd, he⟩ := tame_advance op.body ts.length s _ (Task.new op) hnew
    (by simpa [Task.new] using tame_body op)
  simp only [List.length_append, List.length_singleton] at ha hd
  have hold : ∀ i, i < ts.length →
      (Page.advance op.body ts.length s (ts ++ [Task.new op])).tasks[i]? = ts[i]? := by
    intro i hi
    rw [ha i (by omega) (by omega), List.getElem?_append_left hi]
  refine ⟨?_, ⟨t0, ?_, hop0, hw0⟩, ?_, hinv1⟩
  · simp only [Page.start]
    rw [he (by simpa [Task.new] using hop)]
    exact hl
  · simp only [Page.start]
    rw [hold tid htid]
    exact ht0
  · intro j t hj htj hadd
    simp only [Page.start] at htj
    by_cases h1 : j < ts.length
    · rw [hold j h1] at htj
      exact hothers j t hj htj hadd
    · by_cases h2 : j = ts.length
      · subst h2
        have := (hc t htj).1
        rw [this] at hadd
        exact absurd hadd (by simpa [Task.new] using hop)
      · exact absurd hadd (hd j t htj (by omega)).1

theorem mining_settle (tid x : Nat) (pg : Page) (j : Nat) (r : Response) (hj : j ≠ tid)
    (h : Mining tid x pg) : Mining tid x (pg.settle j r) := by
  obtain ⟨hl, ⟨t0, ht0, hop0, hw0⟩, hothers, hinv⟩ := h
  have hinv1 := tameInv_settle pg j r hinv
  rcases pg with ⟨s, ts⟩
  have htid : tid < ts.length := getElem?_lt_of_eq_some ht0
  simp only [Page.settle] at hinv1 ⊢
  cases hjt : ts[j]? with
  | none => exact ⟨hl, ⟨t0, ht0, hop0, hw0⟩, hothers, hinv⟩
  | some t =>
      rcases t with ⟨op, log, β, w⟩
      cases w with
      | none => exact ⟨hl, ⟨t0, ht0, hop0, hw0⟩, hothers, hinv⟩
      | some w =>
          rcases w with ⟨req, k⟩
          simp only [hjt] at hinv1 ⊢
          have hop : op ≠ .addAddressToWhitelist := by
            intro hadd
            have := hothers j _ hj hjt hadd
            simp at this
          have hk := (hinv j _ hjt req k rfl).2 r
          have ht1 : (ts.modify (fun t => t.record (.settled req r)) j)[j]?
              = some (Task.record ⟨op, log, β, some (req, k)⟩ (.settled req r)) := by
            simp [List.getElem?_modify_eq, hjt]
          obtain ⟨ha, _, hc, hd, he⟩ := tame_advance (k r) j s _ _ ht1 (by simpa using hk)
          simp only [List.length_modify, Task.record_op] at ha hc hd he
          have hold : ∀ i, i < ts.length → i ≠ j →
              (Page.advance (k r) j s
                (ts.modify (fun t => t.record (.settled req r)) j)).tasks[i]? = ts[i]? := by
            intro i hi hij
            rw [ha i hi hij, List.getElem?_modify_ne _ _ (Ne.symm hij)]
          refine ⟨?_, ⟨t0, ?_, hop0, hw0⟩, ?_, hinv1⟩
          · rw [he hop]
            exact hl
          · rw [hold tid htid (Ne.symm hj)]
            exact ht0
          · intro i t hi hti hadd
            by_cases h1 : i = j
            · subst h1
              have := (hc t hti).1
              rw [this] at hadd
              exact absurd hadd hop
            · by_cases h2 : ts.length ≤ i
              · exact absurd hadd (hd i t hti h2).1
              · rw [hold i (by omega) h1] at hti
                exact hothers i t hi hti hadd

theorem renderButton_loading (s : SessionState) (h : s.loading = true) :
    renderButton s ≠ .joinButton := by
  rcases s with ⟨_ | _, _ | _, _ | _, n⟩ <;> simp_all [renderButton]

theorem mining_step (tid x : Nat) (pg : Page) (a : Action) (ha : ∀ r, a ≠ .settle tid r)
    (h : Mining tid x pg) : Mining tid x (pg.step a) := by
  cases a with
  | useEffect =>
      simp only [Page.step, Page.useEffect]
      split
      · exact mining_start tid x pg _ (by decide) h
      · exact h
  | click =>
      simp only [Page.step, Page.click]
      have hne := renderButton_loading pg.state h.1
      cases hb : renderButton pg.state with
      | thanks => simpa [Control.onClick] using h
      | loadingButton => simpa [Control.onClick] using h
      | joinButton => exact absurd hb hne
      | connectButton =>
          simp only [Control.onClick]
          exact mining_start tid x pg _ (by decide) h
  | settle j r =>
      have hj : j ≠ tid := by
        intro e
        subst e
        exact ha r rfl
      exact mining_settle tid x pg j r hj h

theorem mining_run (tid x : Nat) (as : List Action) (pg : Page)
    (has : ∀ r, Action.settle tid r ∉ as) (h : Mining tid x pg) : Mining tid x (pg.run as) := by
  induction as generalizing pg with
  | nil => exact h
  | cons a as ih =>
      refine ih (pg.step a) (fun r hr => has r (List.mem_cons_of_mem _ hr)) ?_
      exact mining_step tid x pg a (fun r e => has r (by simp [e])) h

theorem Page.summary_getElem? (pg : Page) (i : Nat) (op : Op) (w : Option Request) :
    pg.summary[i]? = some (op, w) ↔ ∃ t, pg.tasks[i]? = some t ∧ t.op = op ∧ t.waiting = w := by
  simp only [Page.summary, List.getElem?_map]
  cases pg.tasks[i]? with
  | none => simp
  | some t => simp

theorem Task.waiting_eq_none (t : Task) : t.waiting = none ↔ t.pending = none := by
  rcases t with ⟨op, log, β, w⟩
  cases w <;> simp [Task.waiting]

theorem mining_of_tx (tid x : Nat) (g : Handle) (pg : Page) (hinv : TameInv pg)
    (hwait : pg.summary[tid]? = some (.addAddressToWhitelist, some (.addAddressToWhitelist g)))
    (halone : ∀ j w, j ≠ tid → pg.summary[j]? = some (.addAddressToWhitelist, w) → w = none) :
    Mining tid x (pg.settle tid (.tx x)) := by
  have hinv1 := tameInv_settle pg tid (.tx x) hinv
  obtain ⟨t, ht, hop, hw⟩ := (pg.summary_getElem? tid _ _).1 hwait
  have hothers : ∀ j t, j ≠ tid → pg.tasks[j]? = some t → t.op = .addAddressToWhitelist →
      t.pending = none := by
    intro j t1 hj ht1 hop1
    have := halone j t1.waiting hj ((pg.summary_getElem? j _ _).2 ⟨t1, ht1, hop1, rfl⟩)
    exact (Task.waiting_eq_none t1).1 this
  rcases pg with ⟨s, ts⟩
  rcases t with ⟨op, log, β, w⟩
  simp only at hop
  subst hop
  cases w with
  | none => simp [Task.waiting] at hw
  | some w =>
      rcases w with ⟨req, k⟩
      simp only [Task.waiting, Option.map_some', Option.some.injEq] at hw
      subst hw
      obtain ⟨k1, hk1⟩ := (hinv tid _ ht _ k rfl).1 g x rfl
      simp only at ht hothers
      simp only [Page.settle, ht, hk1, Page.advance] at hinv1 ⊢
      refine ⟨?_, ⟨((Task.record (Task.record
          ⟨.addAddressToWhitelist, log, β, some (.addAddressToWhitelist g, k)⟩
          (.settled (.addAddressToWhitelist g) (.tx x))) (.did (.setLoading true))).suspend
            (.wait x) k1), ?_, ?_, ?_⟩, ?_, hinv1⟩
      · rcases s with ⟨wc, j, l, n⟩
        rfl
      · simp [List.getElem?_modify_eq, ht]
      · simp [Task.record]
      · simp [Task.waiting, Task.suspend, Task.record]
      · intro j t1 hj ht1 hop1
        simp only [List.getElem?_modify_ne _ _ (Ne.symm hj)] at ht1
        exact hothers j t1 hj ht1 hop1

/-! ## The wallet handle and the rendered control -/

/-- C4. Once `connect()` has returned a provider `p` and the wallet reports
chain id `c`, `getProviderOrSigner needSigner` throws if and only if `c ≠ 5`
(and what it throws is then the change-network error, after the alert); on
chain 5 it returns the signer of `p` when `needSigner` is true and the
read-only `Web3Provider` of `p` otherwise. -/
theorem getProviderOrSigner_chain (needSigner : Bool) (p c : Nat) :
    ((∃ e, ((getProviderOrSigner needSigner).answer [.provider p, .network c]).result
        = some (.error e)) ↔ c ≠ 5) ∧
    ((getProviderOrSigner needSigner).answer [.provider p, .network c]).result =
      (if c = 5 then
        some (.ok (if needSigner then Handle.signer p else Handle.web3Provider p))
       else some (.error Err.changeNetwork)) ∧
    (getProviderOrSigner needSigner).answer [.provider p, .network c] =
      (if c = 5 then
        Prog.ret (if needSigner then Handle.signer p else Handle.web3Provider p)
       else Prog.effect .alert (Prog.throw Err.changeNetwork)) := by
  by_cases h : c = 5 <;> cases needSigner <;>
    simp [getProviderOrSigner, web3ModalConnect, getNetwork, bind, Prog.bind, Prog.answer,
      Prog.result, h, pure, Prog.perform]

/-- C10. `renderButton` returns the join button exactly when the wallet is
connected, the address has not joined and nothing is loading; it returns the
connect button exactly when the wallet is not connected; the join button is
the only element whose `onClick` is `addAddressToWhitelist`, so the page
starts a join only with `joinedWhitelist = false`; a connected, joined
session shows the thanks text whatever `loading` is. -/
theorem renderButton_cases (s : SessionState) :
    (renderButton s = .joinButton ↔
        s.walletConnected = true ∧ s.joinedWhitelist = false ∧ s.loading = false) ∧
    (renderButton s = .connectButton ↔ s.walletConnected = false) ∧
    (∀ c : Control, c.onClick = some .addAddressToWhitelist ↔ c = .joinButton) ∧
    ((renderButton s).onClick = some .addAddressToWhitelist ↔
        s.walletConnected = true ∧ s.joinedWhitelist = false ∧ s.loading = false) ∧
    (renderButton s = .thanks ↔ s.walletConnected = true ∧ s.joinedWhitelist = true) := by
  refine ⟨?_, ?_, ?_, ?_, ?_⟩
  · rcases s with ⟨_ | _, _ | _, _ | _, n⟩ <;> simp [renderButton]
  · rcases s with ⟨_ | _, _ | _, _ | _, n⟩ <;> simp [renderButton]
  · intro c; cases c <;> simp [Control.onClick]
  · rcases s with ⟨_ | _, _ | _, _ | _, n⟩ <;> simp [renderButton, Control.onClick]
  · rcases s with ⟨_ | _, _ | _, _ | _, n⟩ <;> simp [renderButton]

/-! ## Single operations -/

/-- C5. On a chain other than 5, a `connectWallet` run leaves the four state
cells as they were and starts no read: its task is the only one, it ends after
the alert and the logged error, and it issues nothing but `connect()` and
`getNetwork()`. -/
theorem connectWallet_wrong_chain (s : SessionState) (p c : Nat) (h : c ≠ 5) :
    (Page.solo s .connectWallet [.provider p, .network c]).state = s ∧
    (Page.solo s .connectWallet [.provider p, .network c]).tasks.map Task.view =
      [(.connectWallet,
        [.issued .connect, .settled .connect (.provider p),
         .issued (.getNetwork p), .settled (.getNetwork p) (.network c),
         .did .alert, .did (.consoleError .changeNetwork)],
        none)] := by
  cases s
  simp [Page.solo, Page.run, Page.step, Page.start, Page.idle, Page.settle, Op.body,
    connectWallet, getProviderOrSigner, web3ModalConnect, getNetwork, bind, Prog.bind,
    Prog.tryCatch, Page.advance, h, Prog.perform, Effect.apply, Task.new, Task.record,
    Task.suspend, Task.finish, Task.view, Task.waiting]

/-- Witness of C5: a fresh session whose wallet is on chain 1. -/
theorem connectWallet_wrong_chain_witness :
    (1 : Nat) ≠ 5 ∧
    (Page.solo .initial .connectWallet [.provider 7, .network 1]).state = .initial ∧
    (Page.solo .initial .connectWallet [.provider 7, .network 1]).tasks.map Task.view =
      [(.connectWallet,
        [.issued .connect, .settled .connect (.provider 7),
         .issued (.getNetwork 7), .settled (.getNetwork 7) (.network 1),
         .did .alert, .did (.consoleError .changeNetwork)],
        none)] :=
  ⟨by decide, connectWallet_wrong_chain .initial 7 1 (by decide)⟩

/-- C6. From a connected, not joined, not loading session on chain 5: when the
wallet returns the transaction, `tx.wait()` succeeds and the count read that
follows returns `n`, the run of `addAddressToWhitelist` ends with
`joinedWhitelist = true`, `loading = false` and `numberOfWhitelisted = n`. -/
theorem addAddressToWhitelist_success (s : SessionState) (p1 t p2 n : Nat)
    (hw : s.walletConnected = true) (hj : s.joinedWhitelist = false)
    (hl : s.loading = false) :
    (Page.solo s .addAddressToWhitelist
      [.provider p1, .network 5, .tx t, .receipt, .provider p2, .network 5, .count n]).state
      = { walletConnected := true, joinedWhitelist := true, loading := false,
          numberOfWhitelisted := n } ∧
    (Page.solo s .addAddressToWhitelist
      [.provider p1, .network 5, .tx t, .receipt, .provider p2, .network 5,
       .count n]).tasks.map Task.waiting = [none] := by
  cases s
  simp only at hw hj hl
  subst hw hj hl
  exact ⟨rfl, rfl⟩

/-- Witness of C6: the count was 3 and the fresh read returns 4. -/
theorem addAddressToWhitelist_success_witness :
    (Page.solo ⟨true, false, false, 3⟩ .addAddressToWhitelist
      [.provider 7, .network 5, .tx 9, .receipt, .provider 7, .network 5, .count 4]).state
      = { walletConnected := true, joinedWhitelist := true, loading := false,
          numberOfWhitelisted := 4 } ∧
    (Page.solo ⟨true, false, false, 3⟩ .addAddressToWhitelist
      [.provider 7, .network 5, .tx 9, .receipt, .provider 7, .network 5,
       .count 4]).tasks.map Task.waiting = [none] :=
  addAddressToWhitelist_success ⟨true, false, false, 3⟩ 7 9 7 4 rfl rfl rfl

/-- C1 (the code departs from it). A run of `addAddressToWhitelist` started
with `loading = false` whose `tx.wait()` is rejected ends (its task waits for
nothing, the error is logged) with `loading = true`. -/
theorem addAddressToWhitelist_wait_rejected_keeps_loading :
    (Page.solo ⟨true, false, false, 3⟩ .addAddressToWhitelist
      [.provider 7, .network 5, .tx 9, .rejected]).state
      = { walletConnected := true, joinedWhitelist := false, loading := true,
          numberOfWhitelisted := 3 } ∧
    (Page.solo ⟨true, false, false, 3⟩ .addAddressToWhitelist
      [.provider 7, .network 5, .tx 9, .rejected]).tasks.map Task.view =
      [(.addAddressToWhitelist,
        [.issued .connect, .settled .connect (.provider 7),
         .issued (.getNetwork 7), .settled (.getNetwork 7) (.network 5),
         .issued (.addAddressToWhitelist (.signer 7)),
         .settled (.addAddressToWhitelist (.signer 7)) (.tx 9),
         .did (.setLoading true),
         .issued (.wait 9), .settled (.wait 9) .rejected,
         .did (.consoleError .rejected)],
        none)] := by
  exact ⟨rfl, rfl⟩

/-! ## Ordering of the reads, the chain guard and the join flag -/

/-- C7. In a fresh session on chain 5, once `connectWallet` and the two reads it
starts have completed - the membership read returning `b`, the count read `n` -
the state is `walletConnected = true`, `joinedWhitelist = b`, `loading = false`,
`numberOfWhitelisted = n` and no task waits for anything, in whichever order
the steps of the two reads interleave. -/
theorem connectWallet_reads_any_order (p0 p1 p2 a n : Nat) (b : Bool) (sched : List Action)
    (h : Interleaves
      (settles 1 [.provider p1, .network 5, .address a, .member b])
      (settles 2 [.provider p2, .network 5, .count n]) sched) :
    ((Page.idle .initial).run
      (.useEffect :: .settle 0 (.provider p0) :: .settle 0 (.network 5) :: sched)).state
      = { walletConnected := true, joinedWhitelist := b, loading := false,
          numberOfWhitelisted := n } ∧
    ((Page.idle .initial).run
      (.useEffect :: .settle 0 (.provider p0) :: .settle 0 (.network 5) :: sched)).tasks.map
        Task.waiting = [none, none, none] := by
  obtain ⟨hs, hv⟩ := connect_and_reads p0 p1 p2 a n b sched ((mem_interleavings _ _ _).2 h)
  refine ⟨hs, ?_⟩
  have hw : ∀ ts : List Task, ts.map Task.waiting = (ts.map Task.view).map (fun v => v.2.2) := by
    intro ts
    simp [List.map_map, Function.comp_def, Task.view]
  rw [hw, hv]
  rfl

/-- Witness of C7: not whitelisted, count 3, the membership read completing
before the count read starts to answer. -/
theorem connectWallet_reads_any_order_witness :
    ((Page.idle .initial).run
      (.useEffect :: .settle 0 (.provider 7) :: .settle 0 (.network 5) ::
        (settles 1 [.provider 7, .network 5, .address 11, .member false] ++
         settles 2 [.provider 7, .network 5, .count 3]))).state
      = { walletConnected := true, joinedWhitelist := false, loading := false,
          numberOfWhitelisted := 3 } ∧
    ((Page.idle .initial).run
      (.useEffect :: .settle 0 (.provider 7) :: .settle 0 (.network 5) ::
        (settles 1 [.provider 7, .network 5, .address 11, .member false] ++
         settles 2 [.provider 7, .network 5, .count 3]))).tasks.map
        Task.waiting = [none, none, none] :=
  connectWallet_reads_any_order 7 7 7 11 3 false _
    ((mem_interleavings _ _ _).1 (by simp [interleavings, interleavingsAux, settles]))

/-- C8. In every run of the page, whatever the actions and responses, a
contract call in a task's log comes after a `getNetwork()` of the same task
that reported chain 5, with no other `getNetwork()` of that task in between;
and an operation whose chain check reports another chain issues no contract
call at all. -/
theorem contract_calls_after_chain_check :
    (∀ (s : SessionState) (as : List Action) (log : List Event),
      log ∈ ((Page.idle s).run as).tasks.map Task.log →
      ∀ (pre post : List Event) (req : Request),
        log = pre ++ .issued req :: post → req.isContractCall = true →
        ∃ pre1 p pre2, pre = pre1 ++ .settled (.getNetwork p) (.network 5) :: pre2 ∧
          ∀ q r, Event.settled (.getNetwork q) r ∉ pre2) ∧
    (∀ (op : Op) (s : SessionState) (p c : Nat) (rest : List Response), c ≠ 5 →
      ∀ log ∈ (Page.solo s op (.provider p :: .network c :: rest)).tasks.map Task.log,
        ∀ req : Request, req.isContractCall = true → Event.issued req ∉ log) := by
  refine ⟨?_, ?_⟩
  · intro s as log hlog pre post req hsplit hreq
    obtain ⟨st, hrun⟩ := chainMonitor_accepts s as log hlog
    subst hsplit
    rcases chainMonitor_guard pre false st req post hrun hreq with ⟨hok, _⟩ | h
    · cases hok
    · exact h
  · intro op s p c rest hc log hlog req hreq hmem
    have hv := solo_wrong_chain op s p c rest hc
    obtain ⟨t, ht, rfl⟩ := List.mem_map.1 hlog
    have : t.view ∈ (Page.solo s op (.provider p :: .network c :: rest)).tasks.map Task.view :=
      List.mem_map.2 ⟨t, ht, rfl⟩
    rw [hv] at this
    simp only [List.mem_singleton, Task.view, Prod.mk.injEq] at this
    obtain ⟨_, hl, _⟩ := this
    rw [hl] at hmem
    simp only [List.mem_cons, Event.issued.injEq, List.mem_singleton, reduceCtorEq, or_false,
      false_or, List.not_mem_nil] at hmem
    rcases hmem with h | h <;> subst h <;> simp [Request.isContractCall] at hreq

/-- Witness of C8: the join transaction of an `addAddressToWhitelist` run. -/
theorem contract_calls_after_chain_check_witness :
    ∃ pre1 p pre2,
      [Event.issued .connect, .settled .connect (.provider 7),
        .issued (.getNetwork 7), .settled (.getNetwork 7) (.network 5)]
        = pre1 ++ .settled (.getNetwork p) (.network 5) :: pre2 ∧
      ∀ q r, Event.settled (.getNetwork q) r ∉ pre2 :=
  contract_calls_after_chain_check.1 ⟨true, false, false, 3⟩
    [.click, .settle 0 (.provider 7), .settle 0 (.network 5)]
    [.issued .connect, .settled .connect (.provider 7),
      .issued (.getNetwork 7), .settled (.getNetwork 7) (.network 5),
      .issued (.addAddressToWhitelist (.signer 7))]
    (by decide) _ [] (.addAddressToWhitelist (.signer 7)) rfl rfl

/-- C3. A step of the page that turns `joinedWhitelist` from false to true is
the settling of a promise of a task that is either an `addAddressToWhitelist`
run whose `tx.wait()` has succeeded, or a `checkIfAddressInWhitelist` run whose
`whitelistedAddresses` read has returned `true`; no click, no `useEffect` run
and no other task does it. -/
theorem joined_only_when_confirmed (s0 : SessionState) (as : List Action) (a : Action)
    (h0 : ((Page.idle s0).run as).state.joinedWhitelist = false)
    (h1 : (((Page.idle s0).run as).step a).state.joinedWhitelist = true) :
    ∃ tid r op log req, a = .settle tid r ∧
      (((Page.idle s0).run as).tasks.map Task.view)[tid]? = some (op, log, some req) ∧
      ((op = .addAddressToWhitelist ∧
          ∃ x, Event.settled (.wait x) .receipt ∈ log ++ [.settled req r]) ∨
       (op = .checkIfAddressInWhitelist ∧
          ∃ g x, Event.settled (.whitelistedAddresses g x) (.member true)
            ∈ log ++ [.settled req r])) := by
  have hinv := joinMonitor.inv_run joinMonitor_safe as _ (joinMonitor.inv_idle s0)
  generalize (Page.idle s0).run as = pg at h0 h1 hinv
  cases a with
  | useEffect =>
      simp only [Page.step, Page.useEffect] at h1
      split at h1
      · have := start_keeps_joined pg _ h1
        simp [h0] at this
      · simp [h0] at h1
  | click =>
      simp only [Page.step, Page.click] at h1
      split at h1
      · have := start_keeps_joined pg _ h1
        simp [h0] at this
      · simp [h0] at h1
  | settle tid r =>
      rcases pg with ⟨s, ts⟩
      simp only [Page.step, Page.settle] at h1
      simp only at h0
      cases htid : ts[tid]? with
      | none => simp [htid, h0] at h1
      | some t =>
          rcases t with ⟨op, log, β, w⟩
          cases w with
          | none => simp [htid, h0] at h1
          | some w =>
              rcases w with ⟨req, k⟩
              simp only [htid] at h1
              obtain ⟨st, hrun, hnext⟩ := hinv tid _ htid
              obtain ⟨st2, hst2, hk⟩ := hnext req k rfl r
              refine ⟨tid, r, op, log, req, rfl, ?_, ?_⟩
              · simp [List.getElem?_map, htid, Task.view, Task.waiting]
              · apply confirms_any
                rcases joinMonitor_flip (k r) tid s _ st2 hk h1 with h2 | h2
                · simp [h0] at h2
                · have hrun2 : joinMonitor.run (op, false) (log ++ [.settled req r])
                      = some st2 := by
                    have := joinMonitor.run_snoc log (.settled req r) _ st hrun
                    exact this.trans hst2
                  have := joinMonitor_run _ op false st2 hrun2
                  rw [this] at h2
                  simpa using h2

/-- Witness of C3: the last step of a successful join. -/
theorem joined_only_when_confirmed_witness :
    ∃ tid r op log req, Action.settle 0 (.count 4) = .settle tid r ∧
      (((Page.idle ⟨true, false, false, 3⟩).run
        [.click, .settle 0 (.provider 7), .settle 0 (.network 5), .settle 0 (.tx 9),
         .settle 0 .receipt, .settle 0 (.provider 7), .settle 0 (.network 5)]).tasks.map
          Task.view)[tid]? = some (op, log, some req) ∧
      ((op = .addAddressToWhitelist ∧
          ∃ x, Event.settled (.wait x) .receipt ∈ log ++ [.settled req r]) ∨
       (op = .checkIfAddressInWhitelist ∧
          ∃ g x, Event.settled (.whitelistedAddresses g x) (.member true)
            ∈ log ++ [.settled req r])) :=
  joined_only_when_confirmed ⟨true, false, false, 3⟩
    [.click, .settle 0 (.provider 7), .settle 0 (.network 5), .settle 0 (.tx 9),
     .settle 0 .receipt, .settle 0 (.provider 7), .settle 0 (.network 5)]
    (.settle 0 (.count 4)) rfl rfl

/-! ## Re-entrant joins and repeated connects -/

/-- C2 (counterexample). While a first `addAddressToWhitelist` run waits for the
wallet to return its transaction, the page still shows the join button; a
second click starts a second run, which issues its own contract call: two
join transactions are outstanding, then two are being mined. -/
theorem second_join_while_first_in_flight :
    renderButton ((Page.idle ⟨true, false, false, 3⟩).run
        [.click, .settle 0 (.provider 7), .settle 0 (.network 5)]).state = .joinButton ∧
    ((Page.idle ⟨true, false, false, 3⟩).run
        [.click, .settle 0 (.provider 7), .settle 0 (.network 5)]).tasks.map
        (fun t => (t.op, t.waiting)) =
      [(.addAddressToWhitelist, some (.addAddressToWhitelist (.signer 7)))] ∧
    ((Page.idle ⟨true, false, false, 3⟩).run
        [.click, .settle 0 (.provider 7), .settle 0 (.network 5),
         .click, .settle 1 (.provider 7), .settle 1 (.network 5)]).tasks.map
        (fun t => (t.op, t.waiting)) =
      [(.addAddressToWhitelist, some (.addAddressToWhitelist (.signer 7))),
       (.addAddressToWhitelist, some (.addAddressToWhitelist (.signer 7)))] ∧
    ((Page.idle ⟨true, false, false, 3⟩).run
        [.click, .settle 0 (.provider 7), .settle 0 (.network 5),
         .click, .settle 1 (.provider 7), .settle 1 (.network 5),
         .settle 0 (.tx 1), .settle 1 (.tx 2)]).tasks.map
        (fun t => (t.op, t.waiting)) =
      [(.addAddressToWhitelist, some (.wait 1)), (.addAddressToWhitelist, some (.wait 2))] := by
  decide

/-- C2 (amended). In every run of the page: if an `addAddressToWhitelist` task
waits for the wallet to return its transaction and every other
`addAddressToWhitelist` task has ended, then once the wallet has returned the
transaction `x`, and for as long as that task waits for `tx.wait()` - whatever
clicks, `useEffect` runs and settlements of other tasks happen - `loading` is
true, `renderButton` does not return the join button, the task still waits
for the mining of `x`, and every other `addAddressToWhitelist` task has ended:
no further join is started and no second join transaction is issued.  The
function itself has no guard: invoked on any page, it issues its own contract
call once `connect()` has returned a provider on chain 5. -/
theorem join_being_mined_blocks_further_joins :
    (∀ (s0 : SessionState) (as0 : List Action) (tid : Nat) (g : Handle) (x : Nat)
        (as : List Action),
      ((Page.idle s0).run as0).summary[tid]?
        = some (.addAddressToWhitelist, some (.addAddressToWhitelist g)) →
      (∀ j w, j ≠ tid →
        ((Page.idle s0).run as0).summary[j]? = some (.addAddressToWhitelist, w) → w = none) →
      (∀ r, Action.settle tid r ∉ as) →
      ((((Page.idle s0).run as0).settle tid (.tx x)).run as).state.loading = true ∧
      renderButton ((((Page.idle s0).run as0).settle tid (.tx x)).run as).state ≠ .joinButton ∧
      ((((Page.idle s0).run as0).settle tid (.tx x)).run as).summary[tid]?
        = some (.addAddressToWhitelist, some (.wait x)) ∧
      ∀ j w, j ≠ tid →
        ((((Page.idle s0).run as0).settle tid (.tx x)).run as).summary[j]?
          = some (.addAddressToWhitelist, w) → w = none) ∧
    (∀ (pg : Page) (q : Nat),
      (((pg.start .addAddressToWhitelist).settle pg.tasks.length (.provider q)).settle
          pg.tasks.length (.network 5)).summary[pg.tasks.length]?
        = some (.addAddressToWhitelist, some (.addAddressToWhitelist (.signer q)))) := by
  refine ⟨?_, ?_⟩
  · intro s0 as0 tid g x as hwait halone has
    have hinv := tameInv_run as0 _ (tameInv_idle s0)
    have hm := mining_run tid x as _ has (mining_of_tx tid x g _ hinv hwait halone)
    obtain ⟨hl, ⟨t, ht, hop, hw⟩, hothers, _⟩ := hm
    refine ⟨hl, renderButton_loading _ hl, ?_, ?_⟩
    · exact (Page.summary_getElem? _ tid _ _).2 ⟨t, ht, hop, hw⟩
    · intro j w hj hjw
      obtain ⟨t1, ht1, hop1, hw1⟩ := (Page.summary_getElem? _ j _ _).1 hjw
      rw [← hw1]
      exact (Task.waiting_eq_none t1).2 (hothers j t1 hj ht1 hop1)
  · intro pg q
    have h1 := Page.start_slot pg .addAddressToWhitelist
    have h2 := Page.settle_slot _ _ (.provider q) _ h1
    have h3 := Page.settle_slot _ _ (.network 5) _ h2
    simp only [Page.summary, List.getElem?_map, h3]
    rfl

/-- Witness of C2 (amended): the only join of the page, once the wallet has
returned transaction 9, under a click, a `useEffect` run and a settlement that
concerns no task. -/
theorem join_being_mined_blocks_further_joins_witness :
    ((Page.idle ⟨true, false, false, 3⟩).run
        [.click, .settle 0 (.provider 7), .settle 0 (.network 5)]).summary[0]?
      = some (.addAddressToWhitelist, some (.addAddressToWhitelist (.signer 7))) ∧
    ((((Page.idle ⟨true, false, false, 3⟩).run
        [.click, .settle 0 (.provider 7), .settle 0 (.network 5)]).settle 0 (.tx 9)).run
        [.click, .useEffect, .settle 1 .rejected]).state.loading = true ∧
    renderButton ((((Page.idle ⟨true, false, false, 3⟩).run
        [.click, .settle 0 (.provider 7), .settle 0 (.network 5)]).settle 0 (.tx 9)).run
        [.click, .useEffect, .settle 1 .rejected]).state ≠ .joinButton ∧
    ((((Page.idle ⟨true, false, false, 3⟩).run
        [.click, .settle 0 (.provider 7), .settle 0 (.network 5)]).settle 0 (.tx 9)).run
        [.click, .useEffect, .settle 1 .rejected]).summary[0]?
      = some (.addAddressToWhitelist, some (.wait 9)) ∧
    ∀ j w, j ≠ 0 →
      ((((Page.idle ⟨true, false, false, 3⟩).run
        [.click, .settle 0 (.provider 7), .settle 0 (.network 5)]).settle 0 (.tx 9)).run
        [.click, .useEffect, .settle 1 .rejected]).summary[j]?
        = some (.addAddressToWhitelist, w) → w = none :=
  ⟨rfl, join_being_mined_blocks_further_joins.1 ⟨true, false, false, 3⟩
    [.click, .settle 0 (.provider 7), .settle 0 (.network 5)] 0 (.signer 7) 9
    [.click, .useEffect, .settle 1 .rejected] rfl
    (by
      intro j w hj h
      cases j with
      | zero => exact absurd rfl hj
      | succ j => simp [Page.summary, Page.run, Page.step, Page.click, Page.settle, Page.start,
          Page.idle, renderButton, Control.onClick, Op.body, addAddressToWhitelist,
          getProviderOrSigner, web3ModalConnect, getNetwork, contractAddAddressToWhitelist, bind,
          Prog.bind, Prog.tryCatch, pure, Page.advance, Task.new, Task.suspend, Task.record] at h)
    (by intro r; simp)⟩

/-- C9 (counterexample). Two consecutive `getProviderOrSigner` calls call
`connect()` twice, and a `connectWallet` run followed by its two reads calls it
three times. -/
theorem connect_invoked_three_times :
    (getProviderOrSigner.bind fun _ => getProviderOrSigner).requests
        [.provider 7, .network 5, .provider 7, .network 5]
      = [.connect, .getNetwork 7, .connect, .getNetwork 7] ∧
    ((Page.idle .initial).run
        [.useEffect, .settle 0 (.provider 7), .settle 0 (.network 5),
         .settle 1 (.provider 7), .settle 1 (.network 5), .settle 1 (.address 11),
         .settle 1 (.member false),
         .settle 2 (.provider 7), .settle 2 (.network 5), .settle 2 (.count 3)]).connects
      = 3 := by
  decide

/-- C9 (amended). Every `getProviderOrSigner` call calls `web3Modal.connect()`
once, first of all, then reads the network of the provider this call returned;
so a `connectWallet` run followed by its two reads, all on chain 5, calls
`connect()` exactly three times, in whichever order the reads interleave. -/
theorem getProviderOrSigner_connects_every_time :
    (∀ (needSigner : Bool) (p c : Nat),
      (getProviderOrSigner needSigner).requests [.provider p, .network c]
        = [.connect, .getNetwork p]) ∧
    (∀ (p0 p1 p2 a n : Nat) (b : Bool) (sched : List Action),
      Interleaves
        (settles 1 [.provider p1, .network 5, .address a, .member b])
        (settles 2 [.provider p2, .network 5, .count n]) sched →
      ((Page.idle .initial).run
        (.useEffect :: .settle 0 (.provider p0) :: .settle 0 (.network 5) :: sched)).connects
        = 3) := by
  refine ⟨?_, ?_⟩
  · intro needSigner p c
    by_cases h : c = 5 <;> cases needSigner <;>
      simp [getProviderOrSigner, web3ModalConnect, getNetwork, bind, Prog.bind, Prog.requests,
        h, pure, Prog.perform]
  · intro p0 p1 p2 a n b sched h
    obtain ⟨_, hv⟩ := connect_and_reads p0 p1 p2 a n b sched ((mem_interleavings _ _ _).2 h)
    have hc : ∀ ts : List Task, (ts.map fun t => t.log.count (.issued .connect))
        = (ts.map Task.view).map (fun v => v.2.1.count (.issued .connect)) := by
      intro ts
      simp [List.map_map, Function.comp_def, Task.view]
    rw [Page.connects, hc, hv]
    simp [connectLog, List.count_cons]

/-- Witness of C9 (amended): the reads one after the other. -/
theorem getProviderOrSigner_connects_every_time_witness :
    ((Page.idle .initial).run
      (.useEffect :: .settle 0 (.provider 7) :: .settle 0 (.network 5) ::
        (settles 1 [.provider 7, .network 5, .address 11, .member false] ++
         settles 2 [.provider 7, .network 5, .count 3]))).connects = 3 :=
  getProviderOrSigner_connects_every_time.2 7 7 7 11 3 false _
    ((mem_interleavings _ _ _).1 (by simp [interleavings, interleavingsAux, settles]))

end Whitelist
